import Mathlib

/-!
Verification of the TushareMCP repository: a shallow embedding of the
rate-limit config resolver (`config.py`), the specification store
(`specs.py`), the documentation-scraper text heuristics (`scrape.py`),
and the login-capture heuristic (`scripts/capture_storage_state.py`),
together with theorems settling the specification claims.

Python dynamic values are embedded as a JSON-shaped inductive type.
Fallible Python operations (attribute access on wrong types, `int()` /
`float()` conversion failures, `json.loads` on malformed files, ...)
are embedded in the `Except String` monad; raising an exception is
`.error`.  Machine floats are idealised as exact rationals, which is
faithful for the decimal literals this code base manipulates.
-/

/-- Embedded Python/JSON value.  `json.loads` distinguishes `int` and
`float`, so the embedding keeps the two constructors apart. -/
inductive Json where
  | null
  | bool (b : Bool)
  | int (n : Int)
  | float (q : ℚ)
  | str (s : String)
  | arr (xs : List Json)
  | obj (kvs : List (String × Json))
  deriving Repr

/-- Python truthiness (`bool(x)`) of an embedded value: `None`, `False`,
zero, the empty string, the empty list and the empty dict are falsy. -/
def Json.pyTruthy : Json → Bool
  | .null => false
  | .bool b => b
  | .int n => n != 0
  | .float q => q != 0
  | .str s => s != ""
  | .arr xs => !xs.isEmpty
  | .obj kvs => !kvs.isEmpty

/-- ASCII whitespace, as matched by Python `str.strip` and the regex
class backslash-s (the Unicode-only whitespace code points are not
exercised by this code base and are left out of the model). -/
def pyIsSpace (c : Char) : Bool :=
  c == ' ' || c == '\t' || c == '\n' || c == '\r' || c == '\x0b' || c == '\x0c'

/-- Strip leading and trailing whitespace from a character list
(Python `str.strip()`). -/
def listStrip (cs : List Char) : List Char :=
  ((cs.dropWhile pyIsSpace).reverse.dropWhile pyIsSpace).reverse

/-- Python `str.strip()`. -/
def pyStrip (s : String) : String :=
  String.mk (listStrip s.data)

/-- Python `str.lower()` (ASCII case mapping; the endpoints, titles and
keywords this code handles mix ASCII and Chinese, and Chinese characters
are unaffected by lowercasing). -/
def pyLower (s : String) : String :=
  String.mk (s.data.map Char.toLower)

/-- Decimal digit-string value; `none` unless the list is a nonempty
run of ASCII digits. -/
def digitsToNat : List Char → Option Nat
  | [] => none
  | cs =>
    if cs.all Char.isDigit then
      some (cs.foldl (fun a c => 10 * a + (c.toNat - Char.toNat '0')) 0)
    else none

/-- Python `int(s)` on a string: strip whitespace, optional sign, then a
nonempty digit run; anything else raises (modelled as `none`). -/
def str_to_int (s : String) : Option Int :=
  match listStrip s.data with
  | [] => none
  | '+' :: rest => (digitsToNat rest).map Int.ofNat
  | '-' :: rest => (digitsToNat rest).map (fun n => -(n : Int))
  | cs => (digitsToNat cs).map Int.ofNat

/-- Digit-run value, treating the empty run as 0 (helper for the float
parser, where `"1."` has an empty fractional part). -/
def digitsVal (cs : List Char) : Nat :=
  cs.foldl (fun a c => 10 * a + (c.toNat - Char.toNat '0')) 0

/-- Python `float(s)` on a string: optional sign, decimal mantissa with
optional point, optional exponent.  The result is the exact rational
value (the model idealises binary floats as exact rationals; `inf` and
`nan` literals are outside the model). -/
def str_to_float (s : String) : Option ℚ :=
  let t := listStrip s.data
  let signAndRest : ℚ × List Char :=
    match t with
    | '+' :: r => (1, r)
    | '-' :: r => (-1, r)
    | r => (1, r)
  let sign := signAndRest.1
  let t1 := signAndRest.2
  let mantExp := t1.span (fun c => c != 'e' && c != 'E')
  let mant := mantExp.1
  let expVal : Option Int :=
    match mantExp.2 with
    | [] => some 0
    | _ :: er =>
      match er with
      | '+' :: r2 => (digitsToNat r2).map Int.ofNat
      | '-' :: r2 => (digitsToNat r2).map (fun n => -(n : Int))
      | r2 => (digitsToNat r2).map Int.ofNat
  let mantVal : Option ℚ :=
    let ipFp := mant.span Char.isDigit
    let ip := ipFp.1
    match ipFp.2 with
    | [] => if ip = [] then none else some ((digitsVal ip : ℚ))
    | '.' :: fp =>
      if fp.all Char.isDigit && !(ip = [] && fp = []) then
        some ((digitsVal ip : ℚ) + (digitsVal fp : ℚ) / ((10 : ℚ) ^ fp.length))
      else none
    | _ => none
  match mantVal, expVal with
  | some m, some e => some (sign * m * (10 : ℚ) ^ (e : ℤ))
  | _, _ => none

/-- Python `int(x)` on an arbitrary value: ints pass through, floats
truncate toward zero, bools map to 0/1, strings parse or raise, and
every other type raises `TypeError`. -/
def pyIntE : Json → Except String Int
  | .int n => .ok n
  | .float q => .ok (Int.tdiv q.num (q.den : Int))
  | .bool b => .ok (if b then 1 else 0)
  | .str s =>
    match str_to_int s with
    | some n => .ok n
    | none => .error "ValueError"
  | _ => .error "TypeError"

/-- Python `float(x)` on an arbitrary value. -/
def pyFloatE : Json → Except String ℚ
  | .int n => .ok (n : ℚ)
  | .float q => .ok q
  | .bool b => .ok (if b then 1 else 0)
  | .str s =>
    match str_to_float s with
    | some q => .ok q
    | none => .error "ValueError"
  | _ => .error "TypeError"

/-- Python `x.get(k)` — only dicts have `.get`; any other receiver
raises `AttributeError`.  Dict keys in this code base are strings. -/
def pyDictGet (j : Json) (k : String) : Except String (Option Json) :=
  match j with
  | .obj kvs => .ok (kvs.lookup k)
  | _ => .error "AttributeError"

/-- Python `x.get(k, d)`. -/
def pyDictGetD (j : Json) (k : String) (d : Json) : Except String Json :=
  (pyDictGet j k).map (fun o => o.getD d)

/-- Python `x or d` for an optional lookup result: a missing or falsy
value is replaced by the default. -/
def pyOrDefault (o : Option Json) (d : Json) : Json :=
  match o with
  | some v => if v.pyTruthy then v else d
  | none => d

/-- Python iteration over a value: lists yield elements, strings yield
one-character strings, dicts yield their keys; other types raise. -/
def pyIter : Json → Except String (List Json)
  | .arr xs => .ok xs
  | .str s => .ok (s.data.map (fun c => .str (String.singleton c)))
  | .obj kvs => .ok (kvs.map (fun kv => .str kv.1))
  | _ => .error "TypeError"

/-- Decimal expansion of the fractional part `num/den` (`num < den`),
one digit per step; stops when the remainder reaches zero or the fuel
runs out (the rationals arising from decimal literals terminate). -/
def fracDigits : Nat → Nat → Nat → List Char
  | _, _, 0 => []
  | num, den, fuel + 1 =>
    if num = 0 then []
    else
      Char.ofNat (Char.toNat '0' + num * 10 / den) :: fracDigits (num * 10 % den) den fuel

/-- Python `str()`/`repr()` of a float, idealised on exact rationals:
sign, integer part, point, fractional digits (`"0"` when none).  For
the terminating decimals this repository manipulates this coincides
with Python shortest-roundtrip float repr. -/
def floatStr (q : ℚ) : String :=
  let sgn := if q < 0 then "-" else ""
  let p := q.num.natAbs
  let d := q.den
  let fr := fracDigits (p % d) d 32
  sgn ++ toString (p / d) ++ "." ++ (if fr.isEmpty then "0" else String.mk fr)

/-- The single-quote character, kept out of string literals. -/
def quoteChar : String :=
  String.singleton (Char.ofNat 39)

mutual

/-- Python `repr(x)` (container cases follow the comma-joined Python
layout; string escaping inside reprs is not exercised by this code
base and is left out). -/
def pyRepr : Json → String
  | .null => "None"
  | .bool b => if b then "True" else "False"
  | .int n => toString n
  | .float q => floatStr q
  | .str s => quoteChar ++ s ++ quoteChar
  | .arr xs => "[" ++ String.intercalate ", " (pyReprList xs) ++ "]"
  | .obj kvs => "\x7b" ++ String.intercalate ", " (pyReprKV kvs) ++ "\x7d"

/-- `repr` of each element of a list. -/
def pyReprList : List Json → List String
  | [] => []
  | x :: xs => pyRepr x :: pyReprList xs

/-- `repr` of each key/value pair of a dict. -/
def pyReprKV : List (String × Json) → List String
  | [] => []
  | (k, v) :: xs => (quoteChar ++ k ++ quoteChar ++ ": " ++ pyRepr v) :: pyReprKV xs
end

/-- Python `str(x)`: identity on strings, `repr` otherwise. -/
def pyStr : Json → String
  | .str s => s
  | j => pyRepr j

/-!  ## `src/tusharemcp/config.py` — rate-limit config resolver  -/

/-- `RateLimitConfig` (config.py lines 9-13). -/
structure RateLimitConfig where
  max_rows : Option Int
  min_interval_seconds : ℚ
  source : String
  deriving Repr, DecidableEq

/-- `_parse_int` (config.py lines 16-22): `None` and the empty string
give `None`; otherwise `int(value)` with failures caught to `None`. -/
def _parse_int (value : Option String) : Option Int :=
  match value with
  | none => none
  | some v => if v = "" then none else str_to_int v

/-- `_parse_float` (config.py lines 25-31). -/
def _parse_float (value : Option String) : Option ℚ :=
  match value with
  | none => none
  | some v => if v = "" then none else str_to_float v

/-- State of the configured file path, embedding the filesystem
boundary of `_load_limits` / `SpecStore.load`: no (falsy) path, a path
naming no existing file, an existing file whose bytes are not valid
JSON, or an existing file parsing to a JSON value. -/
inductive FileInput where
  | noPath
  | missing
  | malformed
  | valid (j : Json)

/-- `_load_limits` (config.py lines 34-40): falsy or nonexistent paths
give `None`; an existing file is fed to `json.loads`, which raises on
malformed content (nothing in `_load_limits` catches that). -/
def _load_limits : FileInput → Except String (Option Json)
  | .noPath => .ok none
  | .missing => .ok none
  | .malformed => .error "JSONDecodeError"
  | .valid j => .ok (some j)

/-- The sort key `int(t.get("min_points", 0))` of config.py line 62,
also recomputed at line 64.  Raises on a tier that is not a dict or
whose `min_points` does not convert to `int`. -/
def tierSortKey (t : Json) : Except String Int := do
  pyIntE (← pyDictGetD t "min_points" (Json.int 0))

/-- The `max_rows` coercion of config.py line 71: `None` is kept as an
explicit absent marker, anything else goes through `int()`. -/
def maxRowsCoerce (mrv : Json) : Except String (Option Int) :=
  match mrv with
  | Json.null => pure none
  | v => do pure (some (← pyIntE v))

/-- Building a `RateLimitConfig` from a selected tier or the `default`
object (config.py lines 70-76 and 80-86, textually identical). -/
def mkLimitsConfig (sel : Json) (limits_path : String) (default_max_rows : Int)
    (default_min_interval_seconds : ℚ) : Except String RateLimitConfig := do
  let mrv ← pyDictGetD sel "max_rows" (Json.int default_max_rows)
  let max_rows_value ← maxRowsCoerce mrv
  let miv ← pyDictGetD sel "min_interval_seconds" (Json.float default_min_interval_seconds)
  let mi ← pyFloatE miv
  pure ⟨max_rows_value, mi, "limits:" ++ limits_path⟩

/-- The `default` fallback of the tier branch (config.py lines 78-86):
`limits.get("default") or ` empty dict; emit a config when truthy. -/
def tierDefaultBranch (limits : Json) (limits_path : String) (default_max_rows : Int)
    (default_min_interval_seconds : ℚ) : Except String (Option RateLimitConfig) := do
  let dfltRaw ← pyDictGet limits "default"
  let dflt := pyOrDefault dfltRaw (Json.obj [])
  if dflt.pyTruthy then
    do pure (some (← mkLimitsConfig dflt limits_path default_max_rows default_min_interval_seconds))
  else
    pure none

/-- Decoration step of the `sorted(...)` call: pair each tier with its
sort key, raising if the key computation raises. -/
def tierKeyPair (t : Json) : Except String (Int × Json) := do
  let k ← tierSortKey t
  pure (k, t)

/-- The selection loop of config.py lines 62-68 over the sorted tiers:
the last tier whose `min_points` is at most the points value wins
(re-evaluating the key, whose failure would be skipped — dead code,
since sorting already evaluated every key). -/
def tierSelect (points : Int) (sortedTiers : List Json) : Option Json :=
  sortedTiers.foldl (fun acc t =>
    match tierSortKey t with
    | .error _ => acc
    | .ok mp => if points ≥ mp then some t else acc) none

/-- The tier-table branch of `resolve_rate_limits` (config.py lines
60-86): sort the tiers ascending by `min_points` (the sort key raises
on an unparsable `min_points` before the loop body ever runs), select
the last qualifying tier, and build the config from it, falling back
to the `default` object. -/
def tierBranch (limits : Json) (points : Int) (limits_path : String)
    (default_max_rows : Int) (default_min_interval_seconds : ℚ) :
    Except String (Option RateLimitConfig) := do
  let tiersRaw ← pyDictGet limits "tiers"
  let tiers := pyOrDefault tiersRaw (Json.arr [])
  let tiersList ← pyIter tiers
  let keyed ← tiersList.mapM tierKeyPair
  let sortedTiers := (List.insertionSort (fun a b => a.1 ≤ b.1) keyed).map (fun p => p.2)
  let selected := tierSelect points sortedTiers
  match selected with
  | some sel =>
    if sel.pyTruthy then
      do pure (some (← mkLimitsConfig sel limits_path default_max_rows default_min_interval_seconds))
    else
      tierDefaultBranch limits limits_path default_max_rows default_min_interval_seconds
  | none =>
    tierDefaultBranch limits limits_path default_max_rows default_min_interval_seconds

/-- The fallthrough of `resolve_rate_limits` below the explicit-env
return (config.py lines 57-100), taking the already-parsed environment
values: try the limits file and tier table, then the partial-env
override, then the defaults. -/
def resolveFallback (max_rows : Option Int) (min_interval : Option ℚ)
    (points_env : Option String) (limits_input : FileInput) (limits_path : String)
    (default_max_rows : Int) (default_min_interval_seconds : ℚ) :
    Except String RateLimitConfig := do
  let limits ← _load_limits limits_input
  let points := _parse_int points_env
  let tiered ← match limits, points with
    | some l, some p =>
      if l.pyTruthy then
        tierBranch l p limits_path default_max_rows default_min_interval_seconds
      else
        pure (none : Option RateLimitConfig)
    | _, _ => pure (none : Option RateLimitConfig)
  match tiered with
  | some cfg => pure cfg
  | none =>
    if max_rows.isSome || min_interval.isSome then
      pure ⟨some (max_rows.getD default_max_rows),
            min_interval.getD default_min_interval_seconds, "env:partial"⟩
    else
      pure ⟨some default_max_rows, default_min_interval_seconds, "default"⟩

/-- `resolve_rate_limits` (config.py lines 43-100).  `limits_path`
carries the textual form of the path used in the `limits:` source tag;
`limits_input` carries the filesystem state behind that path. -/
def resolve_rate_limits (max_rows_env min_interval_env points_env : Option String)
    (limits_input : FileInput) (limits_path : String)
    (default_max_rows : Int) (default_min_interval_seconds : ℚ) :
    Except String RateLimitConfig :=
  let max_rows := _parse_int max_rows_env
  let min_interval := _parse_float min_interval_env
  match max_rows, min_interval with
  | some mr, some mi => pure ⟨some mr, mi, "env:explicit"⟩
  | _, _ =>
    resolveFallback max_rows min_interval points_env limits_input limits_path
      default_max_rows default_min_interval_seconds

/-!  ## `src/tusharemcp/specs.py` — specification store  -/

/-- One pass of the regex substitution of whitespace runs: emit a
single space at the start of each maximal whitespace run. -/
def collapseWsAux : List Char → Bool → List Char
  | [], _ => []
  | c :: rest, prevSpace =>
    if pyIsSpace c then
      (if prevSpace then [] else [' ']) ++ collapseWsAux rest true
    else
      c :: collapseWsAux rest false

/-- `_normalize` (specs.py lines 15-16): collapse whitespace runs to a
single space, strip, lowercase. -/
def _normalize (s : String) : String :=
  pyLower (String.mk (listStrip (collapseWsAux s.data false)))

/-- Python substring containment `needle in hay`. -/
def pyIn (needle hay : String) : Bool :=
  hay.data.tails.any (fun t => needle.data.isPrefixOf t)

/-- Lexicographic code-point comparison of character lists, embedding
Python string `<=` (Python compares strings by code point). -/
def charListLe : List Char → List Char → Bool
  | [], _ => true
  | _ :: _, [] => false
  | a :: as, b :: bs =>
    if a.toNat < b.toNat then true
    else if b.toNat < a.toNat then false
    else charListLe as bs

/-- Python `a <= b` on strings. -/
def pyStrLe (a b : String) : Bool :=
  charListLe a.data b.data

/-- Python `sep.join(xs)` over embedded values: raises `TypeError`
unless every element is a string. -/
def pyStrJoin (sep : String) (xs : List Json) : Except String String :=
  match xs.mapM (fun j => match j with | Json.str s => some s | _ => none) with
  | some ss => .ok (String.intercalate sep ss)
  | none => .error "TypeError"

/-- `SpecStore` (specs.py lines 19-22): the `apis` and `meta` dicts. -/
structure SpecStore where
  apis : List (String × Json)
  meta : List (String × Json)
  deriving Repr

/-- `SpecStore.empty` (specs.py lines 24-26); `now` is the
`_now_iso()` timestamp taken at the call. -/
def SpecStore.empty (now : String) : SpecStore :=
  ⟨[], [("loaded_at", Json.str now), ("source", Json.str "empty")]⟩

/-- Python dict update `d[k] = v` preserving insertion order: existing
keys keep their position, new keys append. -/
def dictSet (d : List (String × Json)) (k : String) (v : Json) : List (String × Json) :=
  if d.any (fun kv => kv.1 == k) then
    d.map (fun kv => if kv.1 == k then (k, v) else kv)
  else
    d ++ [(k, v)]

/-- `SpecStore.load` (specs.py lines 28-39): a falsy or nonexistent
path yields the empty store; otherwise `json.loads` runs (raising on
malformed content), `apis` and `meta` default to empty dicts when
missing or falsy, and `meta` is restamped with `loaded_at` and
`spec_path`.  The embedding types `apis` as a dict at load time (the
Python code would defer the type error to first use). -/
def SpecStore.load (now path_repr : String) : FileInput → Except String SpecStore
  | .noPath => .ok (SpecStore.empty now)
  | .missing => .ok (SpecStore.empty now)
  | .malformed => .error "JSONDecodeError"
  | .valid raw => do
    let apisRaw ← pyDictGet raw "apis"
    let apisJ := pyOrDefault apisRaw (Json.obj [])
    let apis ← match apisJ with
      | Json.obj kvs => pure kvs
      | _ => Except.error "TypeError"
    let metaRaw ← pyDictGet raw "meta"
    let metaJ := pyOrDefault metaRaw (Json.obj [])
    let meta ← match metaJ with
      | Json.obj kvs => pure kvs
      | _ => Except.error "TypeError"
    let meta := dictSet (dictSet meta "loaded_at" (Json.str now)) "spec_path" (Json.str path_repr)
    pure ⟨apis, meta⟩

/-- `SpecStore.get` (specs.py lines 41-42): exact-key dict lookup. -/
def SpecStore.get (store : SpecStore) (api_name : String) : Option Json :=
  store.apis.lookup api_name

/-- The searchable text of one endpoint (specs.py lines 51-64),
returning the `title` and `description` strings reused by the scoring
step together with the space-joined haystack. -/
def searchHaystack (api_name : String) (spec : Json) : Except String (String × String × String) := do
  let title := pyStr (pyOrDefault (← pyDictGet spec "title") (Json.str ""))
  let desc := pyStr (pyOrDefault (← pyDictGet spec "description") (Json.str ""))
  let aliasesJ := pyOrDefault (← pyDictGet spec "aliases") (Json.arr [])
  let aliasItems ← pyIter aliasesJ
  let aliasStr := String.intercalate " " (aliasItems.map pyStr)
  let inputJ := pyOrDefault (← pyDictGet spec "input") (Json.obj [])
  let reqJ := pyOrDefault (← pyDictGet inputJ "required") (Json.arr [])
  let reqItems ← pyIter reqJ
  let reqStr ← pyStrJoin " " reqItems
  let propsJ := pyOrDefault (← pyDictGet inputJ "properties") (Json.obj [])
  let propKeys ← match propsJ with
    | Json.obj kvs => pure (kvs.map (fun kv => kv.1))
    | _ => Except.error "AttributeError"
  let propStr := String.intercalate " " propKeys
  let outputJ := pyOrDefault (← pyDictGet spec "output") (Json.obj [])
  let fieldsJ := pyOrDefault (← pyDictGet outputJ "fields") (Json.arr [])
  let fieldItems ← pyIter fieldsJ
  let fieldNames ← fieldItems.mapM (fun f => pyDictGetD f "name" (Json.str ""))
  let fieldStr ← pyStrJoin " " fieldNames
  let haystack := String.intercalate " "
    [api_name, title, desc, aliasStr, reqStr, propStr, fieldStr]
  pure (title, desc, haystack)

/-- The score of one matching endpoint (specs.py lines 69-75): start at
1, +10 when the keyword occurs in the normalized name, +5 in the
normalized title, +3 in the normalized description. -/
def searchScore (kw api_name title desc : String) : Int :=
  1 + (if pyIn kw (_normalize api_name) then 10 else 0)
    + (if pyIn kw (_normalize title) then 5 else 0)
    + (if pyIn kw (_normalize desc) then 3 else 0)

/-- The match/score pass of `search` (specs.py lines 49-76): walk the
catalog in iteration order, keep the endpoints whose normalized
haystack contains the keyword, and pair each with its score. -/
def searchEntry (kw : String) (kv : String × Json) : Except String (Option (Int × Json)) := do
  let tdh ← searchHaystack kv.1 kv.2
  if pyIn kw (_normalize tdh.2.2) then
    pure (some (searchScore kw kv.1 tdh.1 tdh.2.1, kv.2))
  else
    pure (none : Option (Int × Json))

/-- The per-endpoint results are folded over the catalog in iteration
order. -/
def searchScored (store : SpecStore) (kw : String) : Except String (List (Int × Json)) := do
  let scored ← store.apis.mapM (searchEntry kw)
  pure (scored.filterMap id)

/-- `SpecStore.search` (specs.py lines 44-79): empty normalized keyword
short-circuits to `[]`; otherwise score the matches, sort them stably
by descending score (`list.sort(key=..., reverse=True)`), and truncate
to `max(1, limit)` entries. -/
def SpecStore.search (store : SpecStore) (keyword : String) (limit : Int) :
    Except String (List Json) := do
  let kw := _normalize keyword
  if kw = "" then
    pure []
  else do
    let results ← searchScored store kw
    let sorted := List.insertionSort (fun a b => b.1 ≤ a.1) results
    pure ((sorted.map (fun p => p.2)).take (max 1 limit).toNat)

/-- The result dict of `validate_params` (specs.py line 94). -/
structure ValidationResult where
  ok : Bool
  missing_required : List String
  unknown_params : List String
  deriving Repr, DecidableEq

/-- Python `k in params` for a string-keyed dict: a non-string key is
never equal to any key. -/
def pyParamsLookup (params : List (String × Json)) : Json → Option Json
  | Json.str s => params.lookup s
  | _ => none

/-- Python `v in (None, "")`: equality against `None` and the empty
string only holds for exactly those two values. -/
def pyIsNoneOrEmptyStr : Json → Bool
  | Json.null => true
  | Json.str s => s == ""
  | _ => false

/-- Structural equality used for the `set()` deduplication of the
`required` list (faithful to Python `==` on the strings that occur
there; the numeric cross-type and dict-order corners of Python
equality are not exercised by required-name lists). -/
def Json.beqKey : Json → Json → Bool
  | .null, .null => true
  | .bool a, .bool b => a == b
  | .int a, .int b => a == b
  | .float a, .float b => a == b
  | .str a, .str b => a == b
  | _, _ => false

/-- `set(...)` of an iterated list: deduplicate, keeping first
occurrences (iteration order of the set is irrelevant downstream
because the results are sorted). -/
def dedupJson (l : List Json) : List Json :=
  go l []
where
  /-- Accumulator pass over the list. -/
  go : List Json → List Json → List Json
    | [], _ => []
    | x :: xs, seen =>
      if seen.any (Json.beqKey x) then go xs seen else x :: go xs (x :: seen)

/-- Python `sorted(xs)` for the name lists of `validate_params`:
string sorting by code point.  (Python would raise only on mixed
incomparable types; the model requires all-string input, the only case
these lists produce without raising downstream.) -/
def pySortedStrs (xs : List Json) : Except String (List String) :=
  match xs.mapM (fun j => match j with | Json.str s => some s | _ => none) with
  | some ss => .ok (List.insertionSort (fun a b => pyStrLe a b = true) ss)
  | none => .error "TypeError"

/-- The `input` schema dict of a spec (specs.py line 86). -/
def specInputObj (spec : Json) : Except String Json := do
  pure (pyOrDefault (← pyDictGet spec "input") (Json.obj []))

/-- The iterated `required` list of a spec (specs.py line 87). -/
def specRequiredList (spec : Json) : Except String (List Json) := do
  let inputJ ← specInputObj spec
  pyIter (pyOrDefault (← pyDictGet inputJ "required") (Json.arr []))

/-- The declared property names of a spec (specs.py line 88). -/
def specPropKeys (spec : Json) : Except String (List String) := do
  let inputJ ← specInputObj spec
  match pyOrDefault (← pyDictGet inputJ "properties") (Json.obj []) with
  | Json.obj kvs => pure (kvs.map (fun kv => kv.1))
  | _ => Except.error "AttributeError"

/-- `SpecStore.validate_params` (specs.py lines 81-94): falsy or absent
spec validates trivially; otherwise `missing_required` collects the
required names absent from `params` or mapped to `None`/empty string,
`unknown_params` collects supplied names outside the declared
properties (only when at least one property is declared), and `ok`
is exactly emptiness of `missing_required`. -/
def validate_params (spec : Option Json) (params : List (String × Json)) :
    Except String ValidationResult := do
  let specTruthy := match spec with
    | none => false
    | some j => j.pyTruthy
  if !specTruthy then
    pure ⟨true, [], []⟩
  else do
    let specJ := spec.getD Json.null
    let reqItems ← specRequiredList specJ
    let required := dedupJson reqItems
    let properties ← specPropKeys specJ
    let missingJ := required.filter (fun k =>
      match pyParamsLookup params k with
      | none => true
      | some v => pyIsNoneOrEmptyStr v)
    let missing_required ← pySortedStrs missingJ
    let unknown := (params.map (fun kv => kv.1)).filter (fun k =>
      !properties.isEmpty && !(properties.contains k))
    let unknown_params := List.insertionSort (fun a b => pyStrLe a b = true) unknown
    pure ⟨missing_required.isEmpty, missing_required, unknown_params⟩

/-!  ## `src/tusharemcp/scrape.py` — text-mining heuristics  -/

/-- `_coerce_type` (scrape.py lines 18-32): trim and lowercase the
free-text type token, then map it through the fixed token sets; date
and time containment produce a format annotation; anything else keeps
the raw token as `ts_type`. -/
def _coerce_type (type_text : String) : List (String × Json) :=
  let t := pyLower (pyStrip type_text)
  if t = "" then [("type", Json.str "string")]
  else if t = "str" || t = "string" || t = "text" || t = "varchar" then
    [("type", Json.str "string")]
  else if t = "int" || t = "integer" || t = "long" then
    [("type", Json.str "integer")]
  else if t = "float" || t = "double" || t = "number" || t = "decimal" then
    [("type", Json.str "number")]
  else if t = "bool" || t = "boolean" then
    [("type", Json.str "boolean")]
  else if pyIn "date" t || pyIn "datetime" t || pyIn "time" t then
    [("type", Json.str "string"),
     ("format", Json.str (if pyIn "time" t then "date-time" else "date"))]
  else
    [("type", Json.str "string"), ("ts_type", Json.str t)]

/-- `_is_required` (scrape.py lines 35-37). -/
def _is_required (v : String) : Bool :=
  let x := pyLower (pyStrip v)
  x = "y" || x = "yes" || x = "是" || x = "必填" || x = "required" || x = "true" || x = "1"

/-- A piece of the two max-rows regular expressions, as the regex
engine sees them after Python raw-string literal processing. -/
inductive RPat where
  | lits (ss : List String)
  | notIn (bad : List Char) (lo hi : Nat)
  | reps (c : Char) (lo : Nat) (hi : Option Nat)

/-- Backtracking prefix match of a pattern sequence at the head of the
character list. -/
def matchPats : List RPat → List Char → Bool
  | [], _ => true
  | p :: ps, cs =>
    match p with
    | .lits ss => ss.any (fun s => s.data.isPrefixOf cs && matchPats ps (cs.drop s.length))
    | .notIn bad lo hi =>
      (List.range (hi + 1)).any (fun n =>
        decide (lo ≤ n) && decide (n ≤ cs.length) &&
        (cs.take n).all (fun c => !(bad.contains c)) && matchPats ps (cs.drop n))
    | .reps c lo hi =>
      (List.range ((hi.getD cs.length) + 1)).any (fun n =>
        decide (lo ≤ n) && decide (n ≤ cs.length) &&
        (cs.take n).all (fun d => d == c) && matchPats ps (cs.drop n))

/-- Does the pattern sequence match anywhere in the text
(`re.findall` finds a match iff one starts at some position)? -/
def existsMatch (pats : List RPat) (text : String) : Bool :=
  text.data.tails.any (matchPats pats)

/-- The first max-rows pattern of scrape.py line 114, as the regex
engine receives it: the raw-string literal contains doubled escapes,
so the class excludes a literal backslash and the letter d, and the
intended digit group is a literal backslash followed by one to seven
letter-d characters, then a literal backslash and a run of letter-s
characters, then a unit character. -/
def maxRowsPattern1 : List RPat :=
  [RPat.lits ["限量", "单次最大", "单次最多", "单次", "每次", "单笔", "一次",
              "每次返回行数", "每次返回", "每次可请求股票数", "单次可请求股票数",
              "单次请求股票数"],
   RPat.notIn ['\\', 'd'] 0 20,
   RPat.lits ["\\"],
   RPat.reps 'd' 1 (some 7),
   RPat.lits ["\\"],
   RPat.reps 's' 0 none,
   RPat.lits ["条", "行", "只"]]

/-- The second max-rows pattern of scrape.py line 115, with the same
doubled escapes: a literal backslash plus letter-d run, a literal
backslash plus letter-s run, a unit, up to twelve characters that are
neither a backslash nor the letter n, then a trigger phrase. -/
def maxRowsPattern2 : List RPat :=
  [RPat.lits ["\\"],
   RPat.reps 'd' 1 (some 7),
   RPat.lits ["\\"],
   RPat.reps 's' 0 none,
   RPat.lits ["条", "行", "只"],
   RPat.notIn ['\\', 'n'] 0 12,
   RPat.lits ["每次", "单次", "返回", "请求"]]

/-- `_extract_max_rows` (scrape.py lines 110-120).  Both captured
groups can only ever match a literal backslash followed by letter-d
characters, so `int(x)` on any capture raises `ValueError`; when
neither pattern matches anywhere, `numbers` stays empty and the
function returns `None`. -/
def _extract_max_rows (text : String) : Except String (Option Int) :=
  if text = "" then .ok none
  else if existsMatch maxRowsPattern1 text || existsMatch maxRowsPattern2 text then
    .error "ValueError"
  else
    .ok none

/-!  ## `scripts/capture_storage_state.py` — login heuristic  -/

/-- The page/browser observations `_looks_logged_in` makes, each of
which may raise: the current URL, the local-storage key list, and the
context cookie list (dicts with a `name` entry). -/
structure PageState where
  urlRead : Except Unit String
  localStorageKeys : Except Unit (List String)
  cookies : Except Unit (List (List (String × Json)))

/-- `_looks_logged_in` (capture_storage_state.py lines 10-36): a URL
read failure leaves `url` empty; a URL without `login` counts as
logged in; otherwise look for token-ish local-storage keys, then
token-ish cookie names, treating read failures as no signal; finally
report not logged in.  The function is total: no error propagates. -/
def _looks_logged_in (page : PageState) : Bool :=
  let url := match page.urlRead with
    | .ok u => if u = "" then "" else u
    | .error _ => ""
  if !(pyIn "login" url) then true
  else
    let viaStorage := match page.localStorageKeys with
      | .ok keys => keys.any (fun k =>
          let kl := pyLower k
          pyIn "token" kl || pyIn "auth" kl)
      | .error _ => false
    if viaStorage then true
    else
      match page.cookies with
      | .ok cs => cs.any (fun c =>
          let name := pyLower (pyStr ((c.lookup "name").getD (Json.str "")))
          pyIn "token" name || pyIn "session" name || pyIn "auth" name)
      | .error _ => false

/-!  ## Claim theorems  -/

/-- Concrete tier table from the spec (§8 item 2): tiers at 0, 2000 and
5000 points. -/
def exampleTiers : Json := Json.arr
  [Json.obj [("min_points", Json.int 0), ("max_rows", Json.int 100),
             ("min_interval_seconds", Json.float 1)],
   Json.obj [("min_points", Json.int 2000), ("max_rows", Json.int 1000),
             ("min_interval_seconds", Json.float (3/10))],
   Json.obj [("min_points", Json.int 5000), ("max_rows", Json.int 5000),
             ("min_interval_seconds", Json.float (1/10))]]

/-- The limits file holding `exampleTiers`. -/
def exampleLimits : Json := Json.obj [("tiers", exampleTiers)]

/-- C2 counterexample: an existing limits file with malformed JSON makes
`resolve_rate_limits` raise (the `json.loads` inside `_load_limits` is
not caught), contradicting the claim that malformed limits files are
silently treated as value-not-supplied. -/
theorem c2_counterexample :
    resolve_rate_limits none none (some "100") FileInput.malformed "limits.json" 5000 (7/20)
      = Except.error "JSONDecodeError" := by
  rfl

/-- C2 amended: `resolve_rate_limits` never raises when the environment
strings are arbitrary (non-numeric and empty strings fall through as
value-not-supplied) and the limits path is unset or names no existing
file; only a malformed existing limits file, or tier coercion failures
inside a loaded file, can raise. -/
theorem c2_amended (mre mie pe : Option String) (path : String) (dmr : Int) (dmi : ℚ) :
    (∃ c, resolve_rate_limits mre mie pe FileInput.noPath path dmr dmi = Except.ok c) ∧
    (∃ c, resolve_rate_limits mre mie pe FileInput.missing path dmr dmi = Except.ok c) := by
  constructor <;>
  · unfold resolve_rate_limits
    cases hmr : _parse_int mre <;> cases hmi : _parse_float mie <;>
      cases hp : _parse_int pe <;>
        simp [resolveFallback, _load_limits, hmr, hmi, hp, bind, Except.bind, pure, Except.pure]

/-- C5 counterexample: the token `YYYYMMDD格式的日期` contains neither
the Latin substring `date` nor `time` after lowercasing, so
`_coerce_type` lands in the fallback branch and emits `ts_type`, not
`format: date` as the claim states. -/
theorem c5_counterexample :
    _coerce_type "YYYYMMDD格式的日期"
        = [("type", Json.str "string"), ("ts_type", Json.str "yyyymmdd格式的日期")] ∧
    ¬(_coerce_type "YYYYMMDD格式的日期"
        = [("type", Json.str "string"), ("format", Json.str "date")]) := by
  refine ⟨rfl, fun h => ?_⟩
  have e : _coerce_type "YYYYMMDD格式的日期"
      = [("type", Json.str "string"), ("ts_type", Json.str "yyyymmdd格式的日期")] := rfl
  rw [e] at h
  simp at h

/-- C5 amended: the trimmed lowercased token maps through the fixed
token sets; a token containing `date` or `time` as Latin substrings
(and not in those sets) gets a `format` annotation, `date-time` when it
contains `time`; the empty token maps to the bare string type; any
other token keeps the normalized token as `ts_type`.  In particular
`字符串` yields type string (with `ts_type`), and
`YYYYMMDD格式的日期` — containing neither `date` nor `time` — yields
the `ts_type` form rather than a date format. -/
theorem c5_amended :
    (∀ s, let t := pyLower (pyStrip s)
      (t = "" → _coerce_type s = [("type", Json.str "string")]) ∧
      ((t = "str" ∨ t = "string" ∨ t = "text" ∨ t = "varchar") →
        _coerce_type s = [("type", Json.str "string")]) ∧
      ((t = "int" ∨ t = "integer" ∨ t = "long") →
        _coerce_type s = [("type", Json.str "integer")]) ∧
      ((t = "float" ∨ t = "double" ∨ t = "number" ∨ t = "decimal") →
        _coerce_type s = [("type", Json.str "number")]) ∧
      ((t = "bool" ∨ t = "boolean") →
        _coerce_type s = [("type", Json.str "boolean")]) ∧
      (t ≠ "" → t ≠ "str" → t ≠ "string" → t ≠ "text" → t ≠ "varchar" →
       t ≠ "int" → t ≠ "integer" → t ≠ "long" →
       t ≠ "float" → t ≠ "double" → t ≠ "number" → t ≠ "decimal" →
       t ≠ "bool" → t ≠ "boolean" →
       (pyIn "date" t || pyIn "datetime" t || pyIn "time" t) = true →
        _coerce_type s = [("type", Json.str "string"),
          ("format", Json.str (if pyIn "time" t then "date-time" else "date"))]) ∧
      (t ≠ "" → t ≠ "str" → t ≠ "string" → t ≠ "text" → t ≠ "varchar" →
       t ≠ "int" → t ≠ "integer" → t ≠ "long" →
       t ≠ "float" → t ≠ "double" → t ≠ "number" → t ≠ "decimal" →
       t ≠ "bool" → t ≠ "boolean" →
       (pyIn "date" t || pyIn "datetime" t || pyIn "time" t) = false →
        _coerce_type s = [("type", Json.str "string"), ("ts_type", Json.str t)])) ∧
    _coerce_type "字符串" = [("type", Json.str "string"), ("ts_type", Json.str "字符串")] ∧
    _coerce_type "Integer" = [("type", Json.str "integer")] ∧
    _coerce_type "JSON" = [("type", Json.str "string"), ("ts_type", Json.str "json")] ∧
    _coerce_type "YYYYMMDD格式的日期"
      = [("type", Json.str "string"), ("ts_type", Json.str "yyyymmdd格式的日期")] := by
  refine ⟨?_, rfl, rfl, rfl, rfl⟩
  intro s
  refine ⟨?_, ?_, ?_, ?_, ?_, ?_, ?_⟩
  · intro h
    simp [_coerce_type, h]
  · rintro (h | h | h | h) <;> simp [_coerce_type, h]
  · rintro (h | h | h) <;> simp [_coerce_type, h]
  · rintro (h | h | h | h) <;> simp [_coerce_type, h]
  · rintro (h | h) <;> simp [_coerce_type, h]
  · intro h1 h2 h3 h4 h5 h6 h7 h8 h9 h10 h11 h12 h13 h14 hdt
    simp only [Bool.or_eq_true] at hdt
    simp [_coerce_type, h1, h2, h3, h4, h5, h6, h7, h8, h9, h10, h11, h12, h13, h14, hdt]
  · intro h1 h2 h3 h4 h5 h6 h7 h8 h9 h10 h11 h12 h13 h14 hdt
    simp only [Bool.or_eq_false_iff] at hdt
    simp [_coerce_type, h1, h2, h3, h4, h5, h6, h7, h8, h9, h10, h11, h12, h13, h14,
      hdt.1.1, hdt.1.2, hdt.2]

/-- C5 amended witness: the branch conditions discharged at the token
`datetime`, which lands in the date/time branch with a `date-time`
format. -/
theorem c5_amended_witness :
    _coerce_type "datetime" = [("type", Json.str "string"), ("format", Json.str "date-time")] := by
  have h := (c5_amended.1 "datetime").2.2.2.2.2.1
  simpa using h (by decide) (by decide) (by decide) (by decide) (by decide) (by decide)
    (by decide) (by decide) (by decide) (by decide) (by decide) (by decide) (by decide)
    (by decide) (by decide)

/-- C6: the doubled escape sequences make both max-rows patterns demand
literal backslash characters, so the quoted limit phrase with a real
digit count is never matched and `_extract_max_rows` reports absent. -/
theorem c6_code_evaluation :
    _extract_max_rows "限量：单次最大4000条" = Except.ok none ∧
    _extract_max_rows "每次返回8000行" = Except.ok none := by
  exact ⟨rfl, rfl⟩

/-- C8: loading an unset or nonexistent path yields the empty store
(zero endpoints, `source = "empty"`, fresh timestamp) and `get` /
`search` on the empty store return absent / empty without raising. -/
theorem c8_empty_store (now path kw name : String) (limit : Int) :
    SpecStore.load now path FileInput.noPath = Except.ok (SpecStore.empty now) ∧
    SpecStore.load now path FileInput.missing = Except.ok (SpecStore.empty now) ∧
    (SpecStore.empty now).apis = [] ∧
    (SpecStore.empty now).meta.lookup "source" = some (Json.str "empty") ∧
    (SpecStore.empty now).meta.lookup "loaded_at" = some (Json.str now) ∧
    (SpecStore.empty now).get name = none ∧
    (SpecStore.empty now).search kw limit = Except.ok [] := by
  refine ⟨rfl, rfl, rfl, rfl, rfl, rfl, ?_⟩
  unfold SpecStore.search
  by_cases h : _normalize kw = "" <;>
    simp [h, searchScored, SpecStore.empty, bind, Except.bind, pure, Except.pure,
      List.mapM.loop, List.insertionSort]

/-- C9 counterexample: when reading the page URL raises, the caught
handler leaves `url` empty, the empty URL does not contain `login`, and
the heuristic returns `true` — not `false` as the claim states — even
though local storage and cookies carry no success signal. -/
theorem c9_counterexample :
    _looks_logged_in ⟨Except.error (), Except.ok [], Except.ok []⟩ = true := by
  rfl

/-- C9 amended: when the URL reads successfully and contains `login`,
an error (or an empty signal) from local storage together with an error
(or an empty signal) from cookies makes the heuristic return `false`;
only a URL read error flips the outcome to `true` via the empty-URL
path, and in no case does an error propagate (the heuristic is a total
Boolean function). -/
theorem c9_amended (p : PageState) (u : String)
    (hurl : p.urlRead = Except.ok u)
    (hlogin : pyIn "login" u = true)
    (hstore : ∀ keys, p.localStorageKeys = Except.ok keys →
      keys.all (fun k => !(pyIn "token" (pyLower k) || pyIn "auth" (pyLower k))) = true)
    (hcook : ∀ cs, p.cookies = Except.ok cs →
      cs.all (fun c => !(pyIn "token" (pyLower (pyStr ((c.lookup "name").getD (Json.str ""))))
        || pyIn "session" (pyLower (pyStr ((c.lookup "name").getD (Json.str ""))))
        || pyIn "auth" (pyLower (pyStr ((c.lookup "name").getD (Json.str "")))))) = true) :
    _looks_logged_in p = false := by
  have hu : u ≠ "" := by
    intro h
    rw [h] at hlogin
    exact absurd hlogin (by decide)
  have hanyk : ∀ keys, p.localStorageKeys = Except.ok keys →
      (keys.any (fun k => pyIn "token" (pyLower k) || pyIn "auth" (pyLower k))) = false := by
    intro keys hks
    have hk := hstore keys hks
    simp only [List.all_eq_true, Bool.not_eq_true'] at hk
    simp only [List.any_eq_false, Bool.not_eq_true]
    exact fun k hkmem => hk k hkmem
  have hanyc : ∀ cs, p.cookies = Except.ok cs →
      (cs.any (fun c =>
        pyIn "token" (pyLower (pyStr ((c.lookup "name").getD (Json.str ""))))
        || pyIn "session" (pyLower (pyStr ((c.lookup "name").getD (Json.str ""))))
        || pyIn "auth" (pyLower (pyStr ((c.lookup "name").getD (Json.str "")))))) = false := by
    intro cs hcs
    have hc := hcook cs hcs
    simp only [List.all_eq_true, Bool.not_eq_true'] at hc
    simp only [List.any_eq_false, Bool.not_eq_true]
    exact fun c hcmem => hc c hcmem
  cases hks : p.localStorageKeys with
  | error e =>
    cases hcs : p.cookies with
    | error e2 => simp [_looks_logged_in, hurl, hks, hcs, hu, hlogin]
    | ok cs => simp [_looks_logged_in, hurl, hks, hcs, hu, hlogin, hanyc cs hcs]
  | ok keys =>
    cases hcs : p.cookies with
    | error e2 => simp [_looks_logged_in, hurl, hks, hcs, hu, hlogin, hanyk keys hks]
    | ok cs => simp [_looks_logged_in, hurl, hks, hcs, hu, hlogin, hanyk keys hks, hanyc cs hcs]

/-- C9 amended witness: a login-page URL with raising storage and
cookie reads returns `false`. -/
theorem c9_amended_witness :
    _looks_logged_in ⟨Except.ok "https://tushare.pro/weborder/#/login",
      Except.error (), Except.error ()⟩ = false := by
  exact c9_amended _ "https://tushare.pro/weborder/#/login" rfl (by decide)
    (fun keys h => by cases h) (fun cs h => by cases h)

/-!  ## Shared list/monad lemmas  -/

/-- `mapM` over `Except` succeeds with the pointwise map when every
element succeeds. -/
theorem exceptMapM_ok_of_forall {α β : Type} (f : α → Except String β) (g : α → β) :
    ∀ (l : List α), (∀ x ∈ l, f x = .ok (g x)) → l.mapM f = .ok (l.map g) := by
  intro l
  induction l with
  | nil => intro _; rfl
  | cons x xs ih =>
    intro h
    rw [List.mapM_cons, h x (List.mem_cons_self x xs), ih (fun y hy => h y (List.mem_cons_of_mem x hy))]
    rfl

/-- Every element of a successful `mapM` image comes from some source
element. -/
theorem exceptMapM_ok_mem {α β : Type} (f : α → Except String β) :
    ∀ (l : List α) (r : List β), l.mapM f = .ok r → ∀ y ∈ r, ∃ x ∈ l, f x = .ok y := by
  intro l
  induction l with
  | nil =>
    intro r h y hy
    simp only [List.mapM_nil] at h
    cases h
    cases hy
  | cons x xs ih =>
    intro r h y hy
    rw [List.mapM_cons] at h
    cases hfx : f x with
    | error e => rw [hfx] at h; cases h
    | ok b =>
      rw [hfx] at h
      cases hrest : List.mapM f xs with
      | error e =>
        rw [hrest] at h
        cases h
      | ok rs =>
        rw [hrest] at h
        cases h
        rcases List.mem_cons.mp hy with hy | hy
        · exact ⟨x, List.mem_cons_self x xs, hy ▸ hfx⟩
        · obtain ⟨x', hx', hfx'⟩ := ih rs hrest y hy
          exact ⟨x', List.mem_cons_of_mem x hx', hfx'⟩

/-- A successful `mapM` image contains the image of every source
element. -/
theorem exceptMapM_ok_mem_rev {α β : Type} (f : α → Except String β) :
    ∀ (l : List α) (r : List β), l.mapM f = .ok r → ∀ x ∈ l, ∀ y, f x = .ok y → y ∈ r := by
  intro l
  induction l with
  | nil =>
    intro r h x hx
    cases hx
  | cons z zs ih =>
    intro r h x hx y hy
    rw [List.mapM_cons] at h
    cases hfz : f z with
    | error e => rw [hfz] at h; cases h
    | ok b =>
      rw [hfz] at h
      cases hrest : List.mapM f zs with
      | error e =>
        rw [hrest] at h
        cases h
      | ok rs =>
        rw [hrest] at h
        cases h
        rcases List.mem_cons.mp hx with hx | hx
        · subst hx
          rw [hfz] at hy
          cases hy
          exact List.mem_cons_self y rs
        · exact List.mem_cons_of_mem b (ih rs hrest x hx y hy)

/-- A fold whose step either keeps the accumulator or replaces it with
the current element produces either the initial value or a member. -/
theorem foldl_keepOrTake_mem {α : Type} (f : Option α → α → Option α)
    (hf : ∀ acc t, f acc t = acc ∨ f acc t = some t) :
    ∀ (l : List α) (a : Option α) (x : α), l.foldl f a = some x → a = some x ∨ x ∈ l := by
  intro l
  induction l with
  | nil => intro a x h; exact Or.inl h
  | cons z zs ih =>
    intro a x h
    rcases ih (f a z) x h with h' | h'
    · rcases hf a z with hz | hz
      · rw [hz] at h'
        exact Or.inl h'
      · rw [hz] at h'
        have hx : x = z := (Option.some.inj h').symm
        rw [hx]
        exact Or.inr (List.mem_cons_self z zs)
    · exact Or.inr (List.mem_cons_of_mem z h')

/-- If no element qualifies, the selection fold keeps its initial
accumulator. -/
theorem foldl_select_none {α : Type} (P : Int) :
    ∀ (l : List (Int × α)) (a : Option α), (∀ u ∈ l, ¬(u.1 ≤ P)) →
      l.foldl (fun acc pr => if P ≥ pr.1 then some pr.2 else acc) a = a := by
  intro l
  induction l with
  | nil => intro a _; rfl
  | cons z zs ih =>
    intro a h
    have hz : ¬(P ≥ z.1) := fun hq => h z (List.mem_cons_self z zs) hq
    simp only [List.foldl_cons, if_neg hz]
    exact ih a (fun u hu => h u (List.mem_cons_of_mem z hu))

/-- Over a list sorted ascending by the key, the overwrite-on-qualify
fold selects a qualifying element of maximal key (the last qualifying
element), independently of the initial accumulator. -/
theorem foldl_select_max {α : Type} (P : Int) :
    ∀ (l : List (Int × α)), l.Pairwise (fun a b => a.1 ≤ b.1) →
      (∃ u ∈ l, u.1 ≤ P) →
      ∃ p, p ∈ l ∧ p.1 ≤ P ∧ (∀ u ∈ l, u.1 ≤ P → u.1 ≤ p.1) ∧
        ∀ a, l.foldl (fun acc pr => if P ≥ pr.1 then some pr.2 else acc) a = some p.2 := by
  intro l
  induction l with
  | nil =>
    rintro _ ⟨u, hu, _⟩
    cases hu
  | cons z zs ih =>
    intro hsort hex
    have hhead : ∀ b ∈ zs, z.1 ≤ b.1 := (List.pairwise_cons.mp hsort).1
    have hrest : zs.Pairwise (fun a b => a.1 ≤ b.1) := (List.pairwise_cons.mp hsort).2
    by_cases hqr : ∃ u ∈ zs, u.1 ≤ P
    · obtain ⟨p, hp, hpq, hpmax, hpfold⟩ := ih hrest hqr
      refine ⟨p, List.mem_cons_of_mem z hp, hpq, ?_, ?_⟩
      · intro u hu huq
        rcases List.mem_cons.mp hu with hu | hu
        · exact hu ▸ hhead p hp
        · exact hpmax u hu huq
      · intro a
        simp only [List.foldl_cons]
        exact hpfold _
    · have hzq : z.1 ≤ P := by
        obtain ⟨u, hu, huq⟩ := hex
        rcases List.mem_cons.mp hu with hu | hu
        · exact hu ▸ huq
        · exact absurd ⟨u, hu, huq⟩ hqr
      refine ⟨z, List.mem_cons_self z zs, hzq, ?_, ?_⟩
      · intro u hu huq
        rcases List.mem_cons.mp hu with hu | hu
        · exact hu ▸ le_refl _
        · exact absurd ⟨u, hu, huq⟩ hqr
      · intro a
        simp only [List.foldl_cons, if_pos hzq]
        exact foldl_select_none P zs _ (fun u hu huq => hqr ⟨u, hu, huq⟩)

/-- Fold extensionality over list members. -/
theorem foldl_congr_mem {α β : Type} :
    ∀ (l : List α) (f g : β → α → β) (a : β),
      (∀ b, ∀ x ∈ l, f b x = g b x) → l.foldl f a = l.foldl g a := by
  intro l
  induction l with
  | nil => intro f g a _; rfl
  | cons z zs ih =>
    intro f g a h
    simp only [List.foldl_cons]
    rw [h a z (List.mem_cons_self z zs)]
    exact ih f g _ (fun b x hx => h b x (List.mem_cons_of_mem z hx))

/-!  ## Non-negative min-interval values (for C7)  -/

mutual

/-- Every `min_interval_seconds` entry anywhere inside the value
coerces (when `float()` succeeds on it) to a non-negative rational. -/
def nonNegMIB : Json → Bool
  | .obj kvs => nonNegMIKV kvs
  | .arr xs => nonNegMIList xs
  | _ => true

/-- List version of `nonNegMIB`. -/
def nonNegMIList : List Json → Bool
  | [] => true
  | x :: xs => nonNegMIB x && nonNegMIList xs

/-- Dict version of `nonNegMIB`. -/
def nonNegMIKV : List (String × Json) → Bool
  | [] => true
  | (k, v) :: kvs =>
    (if k = "min_interval_seconds" then
      (match pyFloatE v with
       | .ok q => decide (0 ≤ q)
       | .error _ => true)
     else true)
    && nonNegMIB v && nonNegMIKV kvs

end

/-- Looked-up dict values inherit `nonNegMIB`. -/
theorem nonNegMIKV_lookup {kvs : List (String × Json)} (h : nonNegMIKV kvs = true) :
    ∀ (k : String) (v : Json), kvs.lookup k = some v → nonNegMIB v = true := by
  induction kvs with
  | nil => intro k v hv; cases hv
  | cons kv rest ih =>
    intro k v hv
    obtain ⟨k0, v0⟩ := kv
    rw [nonNegMIKV] at h
    simp only [Bool.and_eq_true] at h
    rw [List.lookup_cons] at hv
    by_cases hk : k == k0
    · rw [hk] at hv
      cases hv
      exact h.1.2
    · rw [Bool.not_eq_true] at hk
      rw [hk] at hv
      exact ih h.2 k v hv

/-- A `min_interval_seconds` entry found by lookup coerces
non-negatively. -/
theorem nonNegMIKV_mi {kvs : List (String × Json)} (h : nonNegMIKV kvs = true) :
    ∀ (v : Json) (q : ℚ), kvs.lookup "min_interval_seconds" = some v →
      pyFloatE v = .ok q → 0 ≤ q := by
  induction kvs with
  | nil => intro v q hv; cases hv
  | cons kv rest ih =>
    intro v q hv hq
    obtain ⟨k0, v0⟩ := kv
    rw [nonNegMIKV] at h
    simp only [Bool.and_eq_true] at h
    rw [List.lookup_cons] at hv
    by_cases hk : ("min_interval_seconds" : String) == k0
    · rw [hk] at hv
      cases hv
      have hk' : k0 = "min_interval_seconds" := (eq_of_beq hk).symm
      have := h.1.1
      rw [if_pos hk', hq] at this
      exact of_decide_eq_true this
    · rw [Bool.not_eq_true] at hk
      rw [hk] at hv
      exact ih h.2 v q hv hq

/-- Array elements inherit `nonNegMIB`. -/
theorem nonNegMIList_mem {xs : List Json} (h : nonNegMIList xs = true) :
    ∀ x ∈ xs, nonNegMIB x = true := by
  induction xs with
  | nil => intro x hx; cases hx
  | cons z zs ih =>
    intro x hx
    rw [nonNegMIList] at h
    simp only [Bool.and_eq_true] at h
    rcases List.mem_cons.mp hx with hx | hx
    · exact hx ▸ h.1
    · exact ih h.2 x hx

/-- Elements produced by iterating a value with non-negative
min-interval entries again satisfy the predicate (string and dict
iteration produce fresh strings, for which it holds trivially). -/
theorem pyIter_nonNeg {tiers : Json} {ts : List Json}
    (hnn : nonNegMIB tiers = true) (h : pyIter tiers = .ok ts) :
    ∀ t ∈ ts, nonNegMIB t = true := by
  cases tiers with
  | arr xs =>
    cases h
    simp only [nonNegMIB] at hnn
    exact nonNegMIList_mem hnn
  | str s =>
    cases h
    intro t ht
    obtain ⟨c, _, rfl⟩ := List.mem_map.mp ht
    rfl
  | obj kvs =>
    cases h
    intro t ht
    obtain ⟨kv, _, rfl⟩ := List.mem_map.mp ht
    rfl
  | null => cases h
  | bool b => cases h
  | int n => cases h
  | float q => cases h

/-- A config built by `mkLimitsConfig` from a value whose min-interval
entries are non-negative, with a non-negative default, has a
non-negative interval. -/
theorem mkLimitsConfig_nonneg {sel : Json} {path : String} {dmr : Int} {dmi : ℚ}
    {c : RateLimitConfig}
    (hnn : nonNegMIB sel = true) (hdmi : 0 ≤ dmi)
    (h : mkLimitsConfig sel path dmr dmi = Except.ok c) :
    0 ≤ c.min_interval_seconds := by
  cases sel
  case obj kvs =>
    simp only [nonNegMIB] at hnn
    simp only [mkLimitsConfig, pyDictGetD, pyDictGet, Except.map, bind, Except.bind,
      pure, Except.pure] at h
    cases hmr : maxRowsCoerce ((kvs.lookup "max_rows").getD (Json.int dmr)) with
    | error e => rw [hmr] at h; cases h
    | ok mv =>
      rw [hmr] at h
      cases hq : pyFloatE ((kvs.lookup "min_interval_seconds").getD (Json.float dmi)) with
      | error e => rw [hq] at h; cases h
      | ok q =>
        rw [hq] at h
        cases h
        cases hmi : kvs.lookup "min_interval_seconds" with
        | none =>
          rw [hmi] at hq
          simp only [Option.getD_none, pyFloatE] at hq
          cases hq
          exact hdmi
        | some v =>
          rw [hmi] at hq
          simp only [Option.getD_some] at hq
          exact nonNegMIKV_mi hnn v q hmi hq
  all_goals
    simp only [mkLimitsConfig, pyDictGetD, pyDictGet, Except.map, bind, Except.bind] at h
  all_goals cases h

/-- The `default`-object fallback of the tier branch preserves
non-negativity of the interval. -/
theorem tierDefaultBranch_nonneg {limits : Json} {path : String} {dmr : Int} {dmi : ℚ}
    {c : RateLimitConfig}
    (hnn : nonNegMIB limits = true) (hdmi : 0 ≤ dmi)
    (h : tierDefaultBranch limits path dmr dmi = Except.ok (some c)) :
    0 ≤ c.min_interval_seconds := by
  cases limits
  case obj kvs =>
    simp only [nonNegMIB] at hnn
    simp only [tierDefaultBranch, pyDictGet, bind, Except.bind, pure, Except.pure] at h
    cases hl : kvs.lookup "default" with
    | none =>
      simp [hl, pyOrDefault, Json.pyTruthy] at h
    | some v =>
      simp only [hl, pyOrDefault] at h
      by_cases hv : v.pyTruthy = true
      · rw [if_pos hv, if_pos hv] at h
        cases hmk : mkLimitsConfig v path dmr dmi with
        | error e => simp only [hmk] at h; cases h
        | ok c0 =>
          simp only [hmk] at h
          cases h
          exact mkLimitsConfig_nonneg (nonNegMIKV_lookup hnn "default" v hl) hdmi hmk
      · rw [if_neg hv] at h
        simp [Json.pyTruthy] at h
  all_goals (simp only [tierDefaultBranch, pyDictGet, bind, Except.bind] at h; cases h)

/-- The tier branch preserves non-negativity of the interval. -/
theorem tierBranch_nonneg {limits : Json} {points : Int} {path : String} {dmr : Int}
    {dmi : ℚ} {c : RateLimitConfig}
    (hnn : nonNegMIB limits = true) (hdmi : 0 ≤ dmi)
    (h : tierBranch limits points path dmr dmi = Except.ok (some c)) :
    0 ≤ c.min_interval_seconds := by
  have hnn0 := hnn
  cases limits
  case obj kvs =>
    simp only [nonNegMIB] at hnn
    simp only [tierBranch, pyDictGet, bind, Except.bind, pure, Except.pure] at h
    have htiers : nonNegMIB (pyOrDefault (kvs.lookup "tiers") (Json.arr [])) = true := by
      cases hl : kvs.lookup "tiers" with
      | none => rfl
      | some v =>
        simp only [pyOrDefault]
        by_cases hv : v.pyTruthy = true
        · rw [if_pos hv]
          exact nonNegMIKV_lookup hnn "tiers" v hl
        · rw [if_neg hv]; rfl
    cases hit : pyIter (pyOrDefault (kvs.lookup "tiers") (Json.arr [])) with
    | error e => simp only [hit] at h; cases h
    | ok ts =>
      simp only [hit] at h
      cases hkeyed : ts.mapM tierKeyPair with
      | error e => simp only [hkeyed] at h; cases h
      | ok keyed =>
        simp only [hkeyed] at h
        cases hsel : tierSelect points
            ((List.insertionSort (fun a b => a.1 ≤ b.1) keyed).map (fun p => p.2)) with
        | none =>
          simp only [hsel] at h
          exact tierDefaultBranch_nonneg hnn0 hdmi h
        | some sel =>
          simp only [hsel] at h
          by_cases hsv : sel.pyTruthy = true
          · rw [if_pos hsv] at h
            cases hmk : mkLimitsConfig sel path dmr dmi with
            | error e => simp only [hmk] at h; cases h
            | ok c0 =>
              simp only [hmk] at h
              cases h
              have hmem : sel ∈ (List.insertionSort (fun a b => a.1 ≤ b.1) keyed).map (fun p => p.2) := by
                unfold tierSelect at hsel
                have hstep : ∀ (acc : Option Json) (t : Json),
                    (match tierSortKey t with
                     | .error _ => acc
                     | .ok mp => if points ≥ mp then some t else acc) = acc ∨
                    (match tierSortKey t with
                     | .error _ => acc
                     | .ok mp => if points ≥ mp then some t else acc) = some t := by
                  intro acc t
                  cases tierSortKey t with
                  | error e => exact Or.inl rfl
                  | ok mp =>
                    by_cases hq : points ≥ mp
                    · exact Or.inr (by simp [hq])
                    · exact Or.inl (by simp [hq])
                rcases foldl_keepOrTake_mem _ hstep _ none sel hsel with h' | h'
                · cases h'
                · exact h'
              obtain ⟨pr, hpr, hpr2⟩ := List.mem_map.mp hmem
              have hprk : pr ∈ keyed := (List.perm_insertionSort _ keyed).mem_iff.mp hpr
              obtain ⟨t, ht, htk⟩ := exceptMapM_ok_mem _ ts keyed hkeyed pr hprk
              have ht2 : pr.2 = t := by
                unfold tierKeyPair at htk
                simp only [bind, Except.bind, pure, Except.pure] at htk
                cases hk : tierSortKey t with
                | error e => rw [hk] at htk; cases htk
                | ok k =>
                  rw [hk] at htk
                  cases htk
                  rfl
              have hsel_nn : nonNegMIB sel = true := by
                rw [← hpr2, ht2]
                exact pyIter_nonNeg htiers hit t ht
              exact mkLimitsConfig_nonneg hsel_nn hdmi hmk
          · rw [if_neg hsv] at h
            exact tierDefaultBranch_nonneg hnn0 hdmi h
  all_goals (simp only [tierBranch, pyDictGet, bind, Except.bind] at h; cases h)

/-- The partial-env / defaults tail of the fallthrough preserves
non-negativity. -/
theorem fallbackTail_nonneg {mr : Option Int} {mi : Option ℚ} {dmr : Int} {dmi : ℚ}
    {c : RateLimitConfig}
    (hmi : ∀ q, mi = some q → 0 ≤ q) (hdmi : 0 ≤ dmi)
    (h : (if mr.isSome || mi.isSome then
            Except.ok (⟨some (mr.getD dmr), mi.getD dmi, "env:partial"⟩ : RateLimitConfig)
          else
            Except.ok ⟨some dmr, dmi, "default"⟩) = Except.ok (ε := String) c) :
    0 ≤ c.min_interval_seconds := by
  split at h <;> cases h
  · cases hmi2 : mi with
    | none => simpa [hmi2] using hdmi
    | some q => simpa [hmi2] using hmi q hmi2
  · exact hdmi

/-- The fallthrough below the explicit-env branch preserves
non-negativity of the interval. -/
theorem resolveFallback_nonneg {mr : Option Int} {mi : Option ℚ} {pe : Option String}
    {fi : FileInput} {path : String} {dmr : Int} {dmi : ℚ} {c : RateLimitConfig}
    (hmi : ∀ q, mi = some q → 0 ≤ q) (hdmi : 0 ≤ dmi)
    (hfi : ∀ j, fi = FileInput.valid j → nonNegMIB j = true)
    (h : resolveFallback mr mi pe fi path dmr dmi = Except.ok c) :
    0 ≤ c.min_interval_seconds := by
  unfold resolveFallback at h
  simp only [bind, Except.bind, pure, Except.pure] at h
  cases fi with
  | noPath =>
    simp only [_load_limits] at h
    exact fallbackTail_nonneg hmi hdmi h
  | missing =>
    simp only [_load_limits] at h
    exact fallbackTail_nonneg hmi hdmi h
  | malformed =>
    simp only [_load_limits] at h
    cases h
  | valid j =>
    simp only [_load_limits] at h
    cases hp : _parse_int pe with
    | none =>
      simp only [hp] at h
      exact fallbackTail_nonneg hmi hdmi h
    | some p =>
      simp only [hp] at h
      by_cases hj : j.pyTruthy = true
      · rw [if_pos hj] at h
        cases htb : tierBranch j p path dmr dmi with
        | error e => simp only [htb] at h; cases h
        | ok tiered =>
          simp only [htb] at h
          cases tiered with
          | some cfg =>
            simp only [] at h
            cases h
            exact tierBranch_nonneg (hfi j rfl) hdmi htb
          | none =>
            simp only [] at h
            exact fallbackTail_nonneg hmi hdmi h
      · rw [if_neg hj] at h
        exact fallbackTail_nonneg hmi hdmi h

/-- C7 counterexample: with both environment overrides parseable and a
negative minimum-interval string, `resolve_rate_limits` returns a
config whose `min_interval_seconds` is negative — nothing in the code
clamps the value, so the claimed invariant fails. -/
theorem c7_counterexample :
    ∃ q : ℚ, resolve_rate_limits (some "5") (some "-1") none FileInput.noPath "x" 5000 (7/20)
      = Except.ok ⟨some 5, q, "env:explicit"⟩ ∧ q < 0 := by
  refine ⟨(-1 : ℚ) * ((digitsVal ['1'] : ℕ) : ℚ) * (10 : ℚ) ^ ((0 : Int) : ℤ), rfl, ?_⟩
  norm_num [digitsVal]
  decide

/-- C7 amended: the resolved `min_interval_seconds` is non-negative
provided every min-interval input is — the parsed environment
override, every `min_interval_seconds` entry inside the limits file,
and the default.  (The code never clamps, so a negative input
propagates; the counterexample forces exactly these hypotheses.) -/
theorem c7_min_interval_nonneg (mre mie pe : Option String) (fi : FileInput)
    (path : String) (dmr : Int) (dmi : ℚ) (c : RateLimitConfig)
    (hmi : ∀ q, _parse_float mie = some q → 0 ≤ q)
    (hdmi : 0 ≤ dmi)
    (hfi : ∀ j, fi = FileInput.valid j → nonNegMIB j = true)
    (h : resolve_rate_limits mre mie pe fi path dmr dmi = Except.ok c) :
    0 ≤ c.min_interval_seconds := by
  unfold resolve_rate_limits at h
  cases hm : _parse_int mre <;> cases hn : _parse_float mie <;> simp only [hm, hn] at h
  · exact resolveFallback_nonneg (by intro q hq; cases hq) hdmi hfi h
  · exact resolveFallback_nonneg
      (by intro q hq; cases hq; exact hmi _ hn) hdmi hfi h
  · exact resolveFallback_nonneg (by intro q hq; cases hq) hdmi hfi h
  · simp only [pure, Except.pure] at h
    cases h
    exact hmi _ hn

/-- C7 amended witness: the tier example at points 3000 resolves with
interval 3/10, and all hypotheses hold at that input. -/
theorem c7_min_interval_nonneg_witness :
    0 ≤ (RateLimitConfig.mk (some 1000) (3/10) "limits:limits.json").min_interval_seconds := by
  exact c7_min_interval_nonneg none none (some "3000") (FileInput.valid exampleLimits)
    "limits.json" 5000 (7/20) _
    (fun q hq => by cases hq)
    (by norm_num)
    (fun j hj => by
      cases hj
      simp [exampleLimits, exampleTiers, nonNegMIB, nonNegMIKV, nonNegMIList, pyFloatE]
      norm_num)
    rfl

/-- The tier sort key as a total function (0 when the key computation
would raise; only used where success is known). -/
def tierKeyD (t : Json) : Int :=
  match tierSortKey t with
  | .ok k => k
  | .error _ => 0

/-- A successful sort key makes `tierKeyPair` produce the decorated
pair. -/
theorem tierKeyPair_eq {t : Json} (h : (tierSortKey t).isOk = true) :
    tierKeyPair t = Except.ok (tierKeyD t, t) := by
  unfold tierKeyPair tierKeyD
  cases hk : tierSortKey t with
  | error e => rw [hk] at h; cases h
  | ok k => simp [bind, Except.bind, pure, Except.pure]

/-- A successful sort key evaluates to `tierKeyD`. -/
theorem tierSortKey_eq {t : Json} (h : (tierSortKey t).isOk = true) :
    tierSortKey t = Except.ok (tierKeyD t) := by
  unfold tierKeyD
  cases hk : tierSortKey t with
  | error e => rw [hk] at h; cases h
  | ok k => rfl

/-- C1: when the explicit-env branch does not fire, the limits file
holds a `tiers` list whose entries are truthy dicts with parsable
`min_points` and coercible row/interval fields, the points value
parses, and at least one tier qualifies, `resolve_rate_limits` returns
the config built from a qualifying tier of maximal `min_points`; and
on the spec's concrete example (tiers at 0, 2000, 5000 and
points 3000) it returns `max_rows=1000`, `min_interval_seconds=3/10`,
source `limits:limits.json`. -/
theorem c1_tier_selection :
    (∀ (mre mie pe : Option String) (kvs : List (String × Json)) (ts : List Json)
       (P : Int) (path : String) (dmr : Int) (dmi : ℚ),
      (_parse_int mre = none ∨ _parse_float mie = none) →
      _parse_int pe = some P →
      kvs.lookup "tiers" = some (Json.arr ts) →
      (∀ t ∈ ts, t.pyTruthy = true ∧ (tierSortKey t).isOk = true ∧
        (mkLimitsConfig t path dmr dmi).isOk = true) →
      (∃ t0 ∈ ts, tierKeyD t0 ≤ P) →
      ∃ t ∈ ts, tierKeyD t ≤ P ∧
        (∀ u ∈ ts, tierKeyD u ≤ P → tierKeyD u ≤ tierKeyD t) ∧
        resolve_rate_limits mre mie pe (FileInput.valid (Json.obj kvs)) path dmr dmi
          = mkLimitsConfig t path dmr dmi) ∧
    resolve_rate_limits none none (some "3000") (FileInput.valid exampleLimits)
        "limits.json" 5000 (7/20)
      = Except.ok ⟨some 1000, 3/10, "limits:limits.json"⟩ := by
  constructor
  · intro mre mie pe kvs ts P path dmr dmi henv hp hlk hwf hex
    -- the decorated tier list
    have hmapM : ts.mapM tierKeyPair = Except.ok (ts.map (fun t => (tierKeyD t, t))) :=
      exceptMapM_ok_of_forall tierKeyPair (fun t => (tierKeyD t, t)) ts
        (fun t ht => tierKeyPair_eq (hwf t ht).2.1)
    set keyed := ts.map (fun t => (tierKeyD t, t)) with hkeyed
    set sortedPairs := List.insertionSort (fun a b => a.1 ≤ b.1) keyed with hsp
    have hperm : sortedPairs.Perm keyed := List.perm_insertionSort _ keyed
    have hsorted : sortedPairs.Pairwise (fun a b => a.1 ≤ b.1) := by
      haveI : IsTotal (Int × Json) (fun a b => a.1 ≤ b.1) := ⟨fun a b => le_total a.1 b.1⟩
      haveI : IsTrans (Int × Json) (fun a b => a.1 ≤ b.1) :=
        ⟨fun a b c hab hbc => le_trans hab hbc⟩
      exact List.sorted_insertionSort _ keyed
    have hkeys : ∀ pr ∈ sortedPairs, tierSortKey pr.2 = Except.ok pr.1 := by
      intro pr hpr
      have hk : pr ∈ keyed := hperm.mem_iff.mp hpr
      obtain ⟨t, ht, rfl⟩ := List.mem_map.mp hk
      exact tierSortKey_eq (hwf t ht).2.1
    -- the selection fold over the sorted tiers
    obtain ⟨t0, ht0, ht0q⟩ := hex
    have hex' : ∃ u ∈ sortedPairs, u.1 ≤ P := by
      refine ⟨(tierKeyD t0, t0), ?_, ht0q⟩
      exact hperm.mem_iff.mpr (List.mem_map.mpr ⟨t0, ht0, rfl⟩)
    obtain ⟨p, hpmem, hpq, hpmax, hpfold⟩ := foldl_select_max P sortedPairs hsorted hex'
    obtain ⟨tsel, htsel, hpsel⟩ := List.mem_map.mp (hperm.mem_iff.mp hpmem)
    have hsel : tierSelect P (sortedPairs.map (fun p => p.2)) = some p.2 := by
      unfold tierSelect
      rw [List.foldl_map]
      rw [foldl_congr_mem sortedPairs _
        (fun acc pr => if P ≥ pr.1 then some pr.2 else acc) none ?_]
      · exact hpfold none
      · intro acc pr hpr
        rw [hkeys pr hpr]
    -- the selected tier is tsel
    have hp2 : p.2 = tsel := by rw [← hpsel]
    have hp1 : p.1 = tierKeyD tsel := by rw [← hpsel]
    obtain ⟨cc, hcc⟩ : ∃ cc, mkLimitsConfig tsel path dmr dmi = Except.ok cc := by
      have := (hwf tsel htsel).2.2
      cases hmk : mkLimitsConfig tsel path dmr dmi with
      | error e => rw [hmk] at this; cases this
      | ok c0 => exact ⟨c0, rfl⟩
    -- the tier branch returns that tier's config
    have hts_ne : ts ≠ [] := by
      intro h0
      rw [h0] at ht0
      cases ht0
    have htb : tierBranch (Json.obj kvs) P path dmr dmi = Except.ok (some cc) := by
      simp only [tierBranch, pyDictGet, bind, Except.bind]
      rw [hlk]
      have htr : pyOrDefault (some (Json.arr ts)) (Json.arr []) = Json.arr ts := by
        simp [pyOrDefault, Json.pyTruthy, hts_ne]
      rw [htr]
      simp only [pyIter]
      rw [hmapM]
      simp only []
      rw [← hsp]
      simp only [hsel, hp2]
      rw [if_pos (hwf tsel htsel).1, hcc]
      rfl
    -- assemble through resolve_rate_limits
    have hkvs_ne : kvs ≠ [] := by
      intro h0
      rw [h0] at hlk
      cases hlk
    have hfb : resolveFallback (_parse_int mre) (_parse_float mie) pe
        (FileInput.valid (Json.obj kvs)) path dmr dmi = Except.ok cc := by
      simp only [resolveFallback, _load_limits, bind, Except.bind]
      simp only [hp]
      have htru : (Json.obj kvs).pyTruthy = true := by
        simp [Json.pyTruthy, hkvs_ne]
      rw [if_pos htru, htb]
      rfl
    refine ⟨tsel, htsel, ?_, ?_, ?_⟩
    · rw [← hp1]; exact hpq
    · intro u hu huq
      rw [← hp1]
      exact hpmax (tierKeyD u, u) (hperm.mem_iff.mpr (List.mem_map.mpr ⟨u, hu, rfl⟩)) huq
    · rw [hcc]
      unfold resolve_rate_limits
      rcases henv with henv | henv <;> rw [henv]
      · cases hn : _parse_float mie
        · rw [henv, hn] at hfb; exact hfb
        · rw [henv, hn] at hfb; exact hfb
      · cases hm : _parse_int mre
        · rw [hm, henv] at hfb; exact hfb
        · rw [hm, henv] at hfb; exact hfb
  · rfl

/-- C1 witness: the spec's concrete tier table at points 3000 selects
the 2000-point tier, and all hypotheses of the general statement hold
there. -/
theorem c1_tier_selection_witness :
    ∃ t ∈ [Json.obj [("min_points", Json.int 0), ("max_rows", Json.int 100),
             ("min_interval_seconds", Json.float 1)],
           Json.obj [("min_points", Json.int 2000), ("max_rows", Json.int 1000),
             ("min_interval_seconds", Json.float (3/10))],
           Json.obj [("min_points", Json.int 5000), ("max_rows", Json.int 5000),
             ("min_interval_seconds", Json.float (1/10))]],
      tierKeyD t ≤ 3000 ∧
      (∀ u ∈ [Json.obj [("min_points", Json.int 0), ("max_rows", Json.int 100),
                ("min_interval_seconds", Json.float 1)],
              Json.obj [("min_points", Json.int 2000), ("max_rows", Json.int 1000),
                ("min_interval_seconds", Json.float (3/10))],
              Json.obj [("min_points", Json.int 5000), ("max_rows", Json.int 5000),
                ("min_interval_seconds", Json.float (1/10))]],
        tierKeyD u ≤ 3000 → tierKeyD u ≤ tierKeyD t) ∧
      resolve_rate_limits none none (some "3000")
          (FileInput.valid (Json.obj [("tiers", exampleTiers)])) "limits.json" 5000 (7/20)
        = mkLimitsConfig t "limits.json" 5000 (7/20) := by
  refine c1_tier_selection.1 none none (some "3000") [("tiers", exampleTiers)] _ 3000
    "limits.json" 5000 (7/20) (Or.inl rfl) rfl rfl ?_ ?_
  · intro t ht
    simp only [List.mem_cons, List.not_mem_nil, or_false] at ht
    rcases ht with rfl | rfl | rfl <;> exact ⟨rfl, rfl, rfl⟩
  · refine ⟨Json.obj [("min_points", Json.int 2000), ("max_rows", Json.int 1000),
      ("min_interval_seconds", Json.float (3/10))], ?_, by decide⟩
    simp

/-- The code-point string order is total. -/
theorem charListLe_total : ∀ (as bs : List Char),
    charListLe as bs = true ∨ charListLe bs as = true := by
  intro as
  induction as with
  | nil => intro bs; exact Or.inl rfl
  | cons a as ih =>
    intro bs
    cases bs with
    | nil => exact Or.inr rfl
    | cons b bs' =>
      rcases Nat.lt_trichotomy a.toNat b.toNat with hab | hab | hab
      · exact Or.inl (by simp [charListLe, hab])
      · rcases ih bs' with h | h
        · exact Or.inl (by simp [charListLe, hab, h])
        · exact Or.inr (by simp [charListLe, hab, h])
      · exact Or.inr (by simp [charListLe, hab])

/-- The code-point string order is transitive. -/
theorem charListLe_trans : ∀ (as bs cs : List Char),
    charListLe as bs = true → charListLe bs cs = true → charListLe as cs = true := by
  intro as
  induction as with
  | nil => intro bs cs _ _; rfl
  | cons a as ih =>
    intro bs cs h1 h2
    cases bs with
    | nil => simp [charListLe] at h1
    | cons b bs' =>
      cases cs with
      | nil => simp [charListLe] at h2
      | cons c cs' =>
        rcases Nat.lt_trichotomy a.toNat b.toNat with hab | hab | hab <;>
          rcases Nat.lt_trichotomy b.toNat c.toNat with hbc | hbc | hbc
      
        · simp [charListLe, Nat.lt_trans hab hbc]
        · simp [charListLe, hbc ▸ hab]
        · simp [charListLe, Nat.lt_asymm hbc, hbc] at h2
        · simp [charListLe, hab ▸ hbc]
        · have hac : a.toNat = c.toNat := hab.trans hbc
          simp only [charListLe] at h1 h2 ⊢
          rw [hab] at h1
          rw [hbc] at h2
          rw [hac]
          simp only [lt_irrefl, if_false] at h1 h2 ⊢
          exact ih bs' cs' h1 h2
        · simp [charListLe, Nat.lt_asymm hbc, hbc] at h2
        · simp [charListLe, Nat.lt_asymm hab, hab] at h1
        · simp [charListLe, Nat.lt_asymm hab, hab] at h1
        · simp [charListLe, Nat.lt_asymm hab, hab] at h1

/-- `beqKey` against a string pattern holds exactly for that string. -/
theorem beqKey_str_iff (a : String) (y : Json) :
    Json.beqKey (Json.str a) y = true ↔ y = Json.str a := by
  cases y <;> simp [Json.beqKey]
  exact ⟨fun h => h.symm, fun h => h.symm⟩

/-- The deduplicated list is a sublist of the original. -/
theorem dedupJson_go_sublist : ∀ (l seen : List Json), (dedupJson.go l seen).Sublist l := by
  intro l
  induction l with
  | nil => intro seen; exact List.Sublist.refl []
  | cons x xs ih =>
    intro seen
    rw [dedupJson.go]
    by_cases hx : xs.isEmpty
    all_goals
      split
      · exact (ih seen).cons x
      · exact (ih (x :: seen)).cons₂ x

/-- A string element of the original list survives deduplication. -/
theorem dedupJson_go_mem_str (k : String) :
    ∀ (l seen : List Json), Json.str k ∈ l →
      (∀ y ∈ seen, Json.beqKey (Json.str k) y = false) →
      Json.str k ∈ dedupJson.go l seen := by
  intro l
  induction l with
  | nil => intro seen h _; cases h
  | cons x xs ih =>
    intro seen hmem hseen
    rw [dedupJson.go]
    by_cases hsk : seen.any (Json.beqKey x) = true
    · rw [if_pos hsk]
      rcases List.mem_cons.mp hmem with hx | hx
      · obtain ⟨y, hy, hby⟩ := List.any_eq_true.mp hsk
        rw [← hx] at hby
        rw [hseen y hy] at hby
        cases hby
      · exact ih seen hx hseen
    · rw [if_neg hsk]
      by_cases hxk : x = Json.str k
      · exact hxk ▸ List.mem_cons_self x _
      · rcases List.mem_cons.mp hmem with hx | hx
        · exact absurd hx.symm hxk
        · refine List.mem_cons_of_mem x (ih (x :: seen) hx ?_)
          intro y hy
          rcases List.mem_cons.mp hy with rfl | hy
          · cases hbc : Json.beqKey (Json.str k) y with
            | false => rfl
            | true => exact absurd ((beqKey_str_iff k y).mp hbc) hxk
          · exact hseen y hy

/-- String membership is preserved by the `set()` deduplication. -/
theorem dedupJson_mem_str (k : String) (l : List Json) :
    Json.str k ∈ dedupJson l ↔ Json.str k ∈ l := by
  constructor
  · intro h
    exact (dedupJson_go_sublist l []).mem h
  · intro h
    exact dedupJson_go_mem_str k l [] h (fun y hy => absurd hy (List.not_mem_nil y))

/-- Membership characterization of a successful `mapM` over `Option`
that extracts the strings of a JSON list. -/
theorem optionMapM_str_mem :
    ∀ (xs : List Json) (ss : List String),
      xs.mapM (fun j => match j with | Json.str s => some s | _ => none) = some ss →
      ∀ k, k ∈ ss ↔ Json.str k ∈ xs := by
  intro xs
  induction xs with
  | nil =>
    intro ss h k
    cases h
    simp
  | cons x xs ih =>
    intro ss h k
    rw [List.mapM_cons] at h
    cases hx : (match x with | Json.str s => some s | _ => none) with
    | none => rw [hx] at h; cases h
    | some s =>
      rw [hx] at h
      cases hrest : xs.mapM (fun j => match j with | Json.str s => some s | _ => none) with
      | none => rw [hrest] at h; cases h
      | some ss' =>
        rw [hrest] at h
        cases h
        have hxs : x = Json.str s := by
          cases x <;> simp at hx
          rw [hx]
        subst hxs
        simp [List.mem_cons, ih ss' hrest k]

/-- `None`-or-empty-string detection holds exactly for those values. -/
theorem pyIsNoneOrEmptyStr_iff (v : Json) :
    pyIsNoneOrEmptyStr v = true ↔ v = Json.null ∨ v = Json.str "" := by
  cases v <;> simp [pyIsNoneOrEmptyStr]

/-- Structure of every successful `validate_params` run on a present
spec: either the spec is falsy (trivial result), or the required and
property extractions succeeded and the result fields are the sorted
missing list, the sorted unknown list, and emptiness of the former. -/
theorem validate_params_some_eq {spec : Json} {params : List (String × Json)}
    {r : ValidationResult}
    (h : validate_params (some spec) params = Except.ok r) :
    (spec.pyTruthy = false ∧ r = ⟨true, [], []⟩) ∨
    (spec.pyTruthy = true ∧ ∃ req props missing,
      specRequiredList spec = Except.ok req ∧
      specPropKeys spec = Except.ok props ∧
      pySortedStrs ((dedupJson req).filter (fun k =>
        match pyParamsLookup params k with
        | none => true
        | some v => pyIsNoneOrEmptyStr v)) = Except.ok missing ∧
      r = ⟨missing.isEmpty, missing,
        List.insertionSort (fun a b => pyStrLe a b = true)
          ((params.map (fun kv => kv.1)).filter (fun k =>
            !props.isEmpty && !(props.contains k)))⟩) := by
  by_cases hts : spec.pyTruthy = true
  · right
    refine ⟨hts, ?_⟩
    simp only [validate_params, hts, Bool.not_true, bind, Except.bind,
      Option.getD, Bool.false_eq_true, if_false] at h
    cases hreq : specRequiredList spec with
    | error e => simp only [hreq] at h; cases h
    | ok req =>
      simp only [hreq] at h
      cases hprops : specPropKeys spec with
      | error e => simp only [hprops] at h; cases h
      | ok props =>
        simp only [hprops] at h
        cases hsort : pySortedStrs ((dedupJson req).filter (fun k =>
            match pyParamsLookup params k with
            | none => true
            | some v => pyIsNoneOrEmptyStr v)) with
        | error e => simp only [hsort] at h; cases h
        | ok missing =>
          simp only [hsort, pure, Except.pure] at h
          cases h
          exact ⟨req, props, missing, rfl, rfl, hsort, rfl⟩
  · left
    rw [Bool.not_eq_true] at hts
    refine ⟨hts, ?_⟩
    simp only [validate_params, hts, Bool.not_false, if_true, pure, Except.pure] at h
    cases h
    rfl

/-- A falsy spec that still yields property keys must be the empty
dict, whose keys are empty. -/
theorem specPropKeys_of_falsy {spec : Json} {props : List String}
    (hf : spec.pyTruthy = false) (hp : specPropKeys spec = Except.ok props) :
    props = [] := by
  cases spec
  case obj kvs =>
    have hk : kvs = [] := by
      simpa [Json.pyTruthy] using hf
    subst hk
    have he : specPropKeys (Json.obj []) = Except.ok [] := rfl
    rw [he] at hp
    cases hp
    rfl
  all_goals simp [specPropKeys, specInputObj, pyDictGet, bind, Except.bind] at hp

/-- A falsy spec that still yields a required list must be the empty
dict, whose required list is empty. -/
theorem specRequiredList_of_falsy {spec : Json} {req : List Json}
    (hf : spec.pyTruthy = false) (hp : specRequiredList spec = Except.ok req) :
    req = [] := by
  cases spec
  case obj kvs =>
    have hk : kvs = [] := by
      simpa [Json.pyTruthy] using hf
    subst hk
    have he : specRequiredList (Json.obj []) = Except.ok [] := rfl
    rw [he] at hp
    cases hp
    rfl
  all_goals simp [specRequiredList, specInputObj, pyDictGet, bind, Except.bind] at hp

/-- The endpoint spec of the spec's validation example: requires
`ts_code`, declares properties `ts_code` and `start_date`. -/
def exampleSpec : Json := Json.obj
  [("input", Json.obj
    [("properties", Json.obj
      [("ts_code", Json.obj [("type", Json.str "string")]),
       ("start_date", Json.obj [("type", Json.str "string")])]),
     ("required", Json.arr [Json.str "ts_code"])])]

/-- C3: with no spec, validation trivially passes with empty lists;
with a spec, `ok` holds exactly when `missing_required` is empty
(unknown parameters never fail validation); `unknown_params` is the
sorted list of supplied names outside the declared properties, and is
only enforced when at least one property is declared; and the two
concrete examples from the spec hold. -/
theorem c3_validate_params :
    (∀ params : List (String × Json),
      validate_params none params = Except.ok ⟨true, [], []⟩) ∧
    (∀ (spec : Json) (params : List (String × Json)) (r : ValidationResult),
      validate_params (some spec) params = Except.ok r →
      (r.ok = true ↔ r.missing_required = [])) ∧
    (∀ (spec : Json) (params : List (String × Json)) (r : ValidationResult)
       (props : List String),
      validate_params (some spec) params = Except.ok r →
      specPropKeys spec = Except.ok props →
      ((props = [] → r.unknown_params = []) ∧
       (∀ k, k ∈ r.unknown_params ↔
          (props ≠ [] ∧ k ∈ params.map (fun kv => kv.1) ∧ k ∉ props)) ∧
       r.unknown_params.Pairwise (fun a b => pyStrLe a b = true))) ∧
    validate_params (some exampleSpec) [("start_date", Json.str "20200101")]
      = Except.ok ⟨false, ["ts_code"], []⟩ ∧
    validate_params (some exampleSpec) [("ts_code", Json.str "x"), ("bogus", Json.str "y")]
      = Except.ok ⟨true, [], ["bogus"]⟩ := by
  refine ⟨fun params => rfl, ?_, ?_, rfl, rfl⟩
  · intro spec params r h
    rcases validate_params_some_eq h with ⟨_, rfl⟩ | ⟨_, req, props, missing, _, _, _, rfl⟩
    · simp
    · simp [List.isEmpty_iff]
  · intro spec params r props h hp
    rcases validate_params_some_eq h with ⟨hf, rfl⟩ | ⟨_, req, props', missing, _, hp', _, rfl⟩
    · have hprops : props = [] := specPropKeys_of_falsy hf hp
      subst hprops
      refine ⟨fun _ => rfl, ?_, List.Pairwise.nil⟩
      intro k
      simp
    · rw [hp] at hp'
      cases hp'
      haveI htot : IsTotal String (fun a b => pyStrLe a b = true) :=
        ⟨fun a b => charListLe_total a.data b.data⟩
      haveI htrans : IsTrans String (fun a b => pyStrLe a b = true) :=
        ⟨fun a b c h1 h2 => charListLe_trans a.data b.data c.data h1 h2⟩
      refine ⟨?_, ?_, ?_⟩
      · intro hpe
        subst hpe
        simp
      · intro k
        rw [(List.perm_insertionSort _ _).mem_iff, List.mem_filter]
        simp [and_assoc, List.isEmpty_iff]
        tauto
      · exact List.sorted_insertionSort _ _

/-- C3 witness: the ok-iff-no-missing equivalence instantiated at the
first concrete example. -/
theorem c3_validate_params_witness :
    ((⟨false, ["ts_code"], []⟩ : ValidationResult).ok = true ↔
      (⟨false, ["ts_code"], []⟩ : ValidationResult).missing_required = []) :=
  c3_validate_params.2.1 exampleSpec [("start_date", Json.str "20200101")]
    ⟨false, ["ts_code"], []⟩ rfl

/-- C10: a required parameter name appears in `missing_required`
exactly when its key is absent from the params dict or its value is
exactly `None` or the empty string; any other value (0, False, an
empty list, ...) counts as provided. -/
theorem c10_missing_exactly_none_or_empty
    (spec : Json) (params : List (String × Json)) (r : ValidationResult)
    (req : List Json)
    (h : validate_params (some spec) params = Except.ok r)
    (hreq : specRequiredList spec = Except.ok req) :
    ∀ k, k ∈ r.missing_required ↔
      (Json.str k ∈ req ∧
        (params.lookup k = none ∨
         ∃ v, params.lookup k = some v ∧ (v = Json.null ∨ v = Json.str ""))) := by
  intro k
  rcases validate_params_some_eq h with ⟨hf, rfl⟩ | ⟨_, req', props, missing, hreq', _, hsort, rfl⟩
  · have hre : req = [] := specRequiredList_of_falsy hf hreq
    subst hre
    simp
  · rw [hreq] at hreq'
    cases hreq'
    simp only []
    cases hm : (List.filter (fun k =>
        match pyParamsLookup params k with
        | none => true
        | some v => pyIsNoneOrEmptyStr v) (dedupJson req)).mapM
          (fun j => match j with | Json.str s => some s | _ => none) with
    | none =>
      rw [pySortedStrs, hm] at hsort
      cases hsort
    | some ss =>
      rw [pySortedStrs, hm] at hsort
      cases hsort
      rw [(List.perm_insertionSort _ _).mem_iff]
      rw [optionMapM_str_mem _ ss hm k]
      rw [List.mem_filter, dedupJson_mem_str]
      have hlk : pyParamsLookup params (Json.str k) = params.lookup k := rfl
      constructor
      · rintro ⟨hmem, hcond⟩
        refine ⟨hmem, ?_⟩
        rw [hlk] at hcond
        cases hl : params.lookup k with
        | none => exact Or.inl rfl
        | some v =>
          rw [hl] at hcond
          exact Or.inr ⟨v, rfl, (pyIsNoneOrEmptyStr_iff v).mp hcond⟩
      · rintro ⟨hmem, hcond⟩
        refine ⟨hmem, ?_⟩
        rw [hlk]
        rcases hcond with hl | ⟨v, hl, hv⟩
        · rw [hl]
        · rw [hl]
          exact (pyIsNoneOrEmptyStr_iff v).mpr hv

/-- C10 witness: with required `ts_code` supplied as the integer 0,
the parameter does not count as missing. -/
theorem c10_missing_exactly_none_or_empty_witness :
    ("ts_code" ∈ (⟨true, [], []⟩ : ValidationResult).missing_required ↔
      (Json.str "ts_code" ∈ [Json.str "ts_code"] ∧
        ([("ts_code", Json.int 0)].lookup "ts_code" = none ∨
         ∃ v, [("ts_code", Json.int 0)].lookup "ts_code" = some v ∧
           (v = Json.null ∨ v = Json.str "")))) :=
  c10_missing_exactly_none_or_empty exampleSpec [("ts_code", Json.int 0)]
    ⟨true, [], []⟩ [Json.str "ts_code"] rfl rfl "ts_code"

/-- Membership in the match/score pass: exactly the catalog entries
whose haystack computation succeeds and contains the keyword, paired
with their score. -/
theorem searchScored_mem {store : SpecStore} {kw : String} {ms : List (Int × Json)}
    (h : searchScored store kw = Except.ok ms) :
    ∀ p, p ∈ ms ↔ ∃ kv ∈ store.apis, ∃ t d hay,
      searchHaystack kv.1 kv.2 = Except.ok (t, d, hay) ∧
      pyIn kw (_normalize hay) = true ∧
      p = (searchScore kw kv.1 t d, kv.2) := by
  intro p
  simp only [searchScored, bind, Except.bind, pure, Except.pure] at h
  cases hm : store.apis.mapM (searchEntry kw) with
  | error e => rw [hm] at h; cases h
  | ok scored =>
    rw [hm] at h
    cases h
    rw [List.mem_filterMap]
    constructor
    · rintro ⟨o, ho, hop⟩
      cases o with
      | none => cases hop
      | some p' =>
        cases hop
        obtain ⟨kv, hkv, hf⟩ := exceptMapM_ok_mem _ _ scored hm _ ho
        simp only [searchEntry, bind, Except.bind, pure, Except.pure] at hf
        cases hh : searchHaystack kv.1 kv.2 with
        | error e => simp only [hh] at hf; cases hf
        | ok tdh =>
          simp only [hh] at hf
          by_cases hin : pyIn kw (_normalize tdh.2.2) = true
          · rw [if_pos hin] at hf
            cases hf
            exact ⟨kv, hkv, tdh.1, tdh.2.1, tdh.2.2, by rw [hh], hin, rfl⟩
          · rw [if_neg hin] at hf
            cases hf
    · rintro ⟨kv, hkv, t, d, hay, hh, hin, rfl⟩
      refine ⟨some (searchScore kw kv.1 t d, kv.2), ?_, rfl⟩
      refine exceptMapM_ok_mem_rev _ _ scored hm kv hkv _ ?_
      simp only [searchEntry, bind, Except.bind, pure, Except.pure, hh]
      rw [if_pos hin]

/-- Ordered insertion of a fresh-index decorated element commutes with
forgetting the indices, provided the index is smaller than every
present index (the decorated relation then coincides with the plain
one). -/
theorem orderedInsert_enum_comm {α : Type} (r : α → α → Prop) [DecidableRel r]
    (x : α) (i : ℕ) :
    ∀ (ys : List (ℕ × α)), (∀ q ∈ ys, i < q.1) →
      (List.orderedInsert (fun p q => r p.2 q.2 ∧ (r q.2 p.2 → p.1 ≤ q.1)) (i, x) ys).map
          (fun p => p.2)
        = List.orderedInsert r x (ys.map (fun p => p.2)) := by
  intro ys
  induction ys with
  | nil => intro _; rfl
  | cons q ys' ih =>
    intro hi
    obtain ⟨j, y⟩ := q
    have hij : i < j := hi (j, y) (List.mem_cons_self _ _)
    by_cases hr : r x y
    · have hlex : (fun (p q : ℕ × α) => r p.2 q.2 ∧ (r q.2 p.2 → p.1 ≤ q.1)) (i, x) (j, y) :=
        ⟨hr, fun _ => Nat.le_of_lt hij⟩
      simp only [List.orderedInsert, if_pos hlex, if_pos hr, List.map]
    · have hnlex : ¬((fun (p q : ℕ × α) => r p.2 q.2 ∧ (r q.2 p.2 → p.1 ≤ q.1)) (i, x) (j, y)) :=
        fun hc => hr hc.1
      simp only [List.orderedInsert, if_neg hnlex, if_neg hr, List.map]
      rw [ih (fun q hq => hi q (List.mem_cons_of_mem _ hq))]

/-- Insertion sort of the index-decorated list under the
lexicographic (relation, then original index) order, then forgetting
indices, equals plain insertion sort: the stable-sort characterization
used for the search ranking. -/
theorem insertionSort_enum_comm {α : Type} (r : α → α → Prop) [DecidableRel r] :
    ∀ (l : List α) (k : ℕ),
      (List.insertionSort (fun p q => r p.2 q.2 ∧ (r q.2 p.2 → p.1 ≤ q.1)) (List.enumFrom k l)).map
          (fun p => p.2)
        = List.insertionSort r l := by
  intro l
  induction l with
  | nil => intro _; rfl
  | cons x xs ih =>
    intro k
    rw [List.enumFrom_cons]
    simp only [List.insertionSort]
    rw [orderedInsert_enum_comm r x k _ ?_]
    · rw [ih (k + 1)]
    · intro q hq
      have hq' : q ∈ List.enumFrom (k + 1) xs :=
        (List.perm_insertionSort _ _).mem_iff.mp hq
      obtain ⟨j, y⟩ := q
      have hb := List.mem_enumFrom hq'
      omega

/-- The catalog of the spec's search-ranking example: one endpoint
named `stock_basic` (title `基础信息`), and one endpoint merely
mentioning `stock_basic` in its description. -/
def exampleStore : SpecStore :=
  ⟨[("stock_basic", Json.obj
      [("name", Json.str "stock_basic"), ("title", Json.str "基础信息")]),
    ("other_api", Json.obj
      [("name", Json.str "other_api"), ("title", Json.str "行情"),
       ("description", Json.str "wraps stock_basic data")])], []⟩

/-- C4: an empty or whitespace-only keyword yields `[]`; the match set
is exactly the endpoints whose normalized haystack contains the
normalized keyword, each scored `1` plus the additive `+10`/`+5`/`+3`
name/title/description bonuses; the output is the stable descending
sort of the matches (equal scores keep catalog order, expressed by
the index-decorated pairwise condition) truncated to `max(1, limit)`
entries; and on the concrete two-endpoint catalog the name match
outranks the description match, while an absent keyword returns `[]`. -/
theorem c4_search_ranking :
    (∀ (store : SpecStore) (kw : String) (limit : Int),
      _normalize kw = "" → store.search kw limit = Except.ok []) ∧
    (∀ (store : SpecStore) (kw : String) (ms : List (Int × Json)),
      searchScored store (_normalize kw) = Except.ok ms →
      ∀ p, p ∈ ms ↔ ∃ kv ∈ store.apis, ∃ t d hay,
        searchHaystack kv.1 kv.2 = Except.ok (t, d, hay) ∧
        pyIn (_normalize kw) (_normalize hay) = true ∧
        p = (searchScore (_normalize kw) kv.1 t d, kv.2)) ∧
    (∀ (store : SpecStore) (kw : String) (limit : Int) (ms : List (Int × Json))
       (out : List Json),
      _normalize kw ≠ "" →
      searchScored store (_normalize kw) = Except.ok ms →
      store.search kw limit = Except.ok out →
      ∃ LI : List (ℕ × (Int × Json)),
        LI.Perm ms.enum ∧
        LI.Pairwise (fun p q => q.2.1 ≤ p.2.1 ∧ (p.2.1 ≤ q.2.1 → p.1 ≤ q.1)) ∧
        out = ((LI.map (fun p => p.2)).map (fun p => p.2)).take (max 1 limit).toNat) ∧
    exampleStore.search "stock_basic" 10 = Except.ok
      [Json.obj [("name", Json.str "stock_basic"), ("title", Json.str "基础信息")],
       Json.obj [("name", Json.str "other_api"), ("title", Json.str "行情"),
         ("description", Json.str "wraps stock_basic data")]] ∧
    exampleStore.search "没有这个关键词" 10 = Except.ok [] := by
  refine ⟨?_, ?_, ?_, rfl, rfl⟩
  · intro store kw limit hk
    simp [SpecStore.search, hk, bind, Except.bind, pure, Except.pure]
  · intro store kw ms h
    exact searchScored_mem h
  · intro store kw limit ms out hne hsc hsearch
    simp only [SpecStore.search, bind, Except.bind] at hsearch
    rw [if_neg hne] at hsearch
    simp only [hsc] at hsearch
    cases hsearch
    refine ⟨List.insertionSort
      (fun p q => (fun a b : Int × Json => b.1 ≤ a.1) p.2 q.2 ∧
        ((fun a b : Int × Json => b.1 ≤ a.1) q.2 p.2 → p.1 ≤ q.1)) ms.enum, ?_, ?_, ?_⟩
    · exact List.perm_insertionSort _ _
    · haveI htot : IsTotal (ℕ × (Int × Json))
          (fun p q => (fun a b : Int × Json => b.1 ≤ a.1) p.2 q.2 ∧
            ((fun a b : Int × Json => b.1 ≤ a.1) q.2 p.2 → p.1 ≤ q.1)) := by
        constructor
        intro p q
        rcases le_total q.2.1 p.2.1 with hs | hs
        · by_cases hs' : p.2.1 ≤ q.2.1
          · rcases le_total p.1 q.1 with hi | hi
            · exact Or.inl ⟨hs, fun _ => hi⟩
            · exact Or.inr ⟨hs', fun _ => hi⟩
          · exact Or.inl ⟨hs, fun hc => absurd hc hs'⟩
        · by_cases hs' : q.2.1 ≤ p.2.1
          · rcases le_total p.1 q.1 with hi | hi
            · exact Or.inl ⟨hs', fun _ => hi⟩
            · exact Or.inr ⟨hs, fun _ => hi⟩
          · exact Or.inr ⟨hs, fun hc => absurd hc hs'⟩
      haveI htr : IsTrans (ℕ × (Int × Json))
          (fun p q => (fun a b : Int × Json => b.1 ≤ a.1) p.2 q.2 ∧
            ((fun a b : Int × Json => b.1 ≤ a.1) q.2 p.2 → p.1 ≤ q.1)) := by
        constructor
        rintro p q r ⟨hpq, hpq2⟩ ⟨hqr, hqr2⟩
        refine ⟨le_trans hqr hpq, fun hpr => ?_⟩
        exact le_trans (hpq2 (le_trans hpr hqr)) (hqr2 (le_trans hpq hpr))
      exact List.sorted_insertionSort _ _
    · have hcomm := insertionSort_enum_comm (fun a b : Int × Json => b.1 ≤ a.1) ms 0
      have henum : ms.enum = List.enumFrom 0 ms := rfl
      rw [henum, hcomm]

/-- C4 witness: the ranking conjunct instantiated on the concrete
catalog, where `stock_basic` scores 11 (base 1 + name 10) and the
description match scores 4 (base 1 + description 3). -/
theorem c4_search_ranking_witness :
    ∃ LI : List (ℕ × (Int × Json)),
      LI.Perm ([((11 : Int), Json.obj
          [("name", Json.str "stock_basic"), ("title", Json.str "基础信息")]),
        ((4 : Int), Json.obj
          [("name", Json.str "other_api"), ("title", Json.str "行情"),
           ("description", Json.str "wraps stock_basic data")])]).enum ∧
      LI.Pairwise (fun p q => q.2.1 ≤ p.2.1 ∧ (p.2.1 ≤ q.2.1 → p.1 ≤ q.1)) ∧
      [Json.obj [("name", Json.str "stock_basic"), ("title", Json.str "基础信息")],
       Json.obj [("name", Json.str "other_api"), ("title", Json.str "行情"),
         ("description", Json.str "wraps stock_basic data")]]
        = ((LI.map (fun p => p.2)).map (fun p => p.2)).take (max 1 (10 : Int)).toNat :=
  c4_search_ranking.2.2.1 exampleStore "stock_basic" 10 _ _ (by decide) rfl rfl
